import Mathlib

set_option maxRecDepth 8000

/-!
Verification of the UPBCash double-entry ledger and wallet-balance subsystem.

This file is a shallow embedding of `accounting/services.py` (class
`WalletService`) together with the parts of `accounting/models.py` and
`events/services.py` that those operations use.  Python `Decimal` values are
modelled as rationals; `Decimal.quantize(Decimal("0.01"))` with the default
`ROUND_HALF_EVEN` context is the function `money` below.  Database tables are
Lean lists inside a `DB` record, newest row first (Django's default ordering
for `LedgerTransaction` is `-created_at`, so `.first()` on a filtered queryset
corresponds to `List.find?` on our newest-first list).  A Python exception
raised inside a `transaction.atomic` block aborts the block and rolls back
every write made inside it, so fallible operations return
`Except Err (DB × result)`: the `.error` outcome carries no database, which is
exactly the all-or-nothing abort semantics.
-/

/-- Rounding to the nearest integer with ties to even, the default
`ROUND_HALF_EVEN` rounding mode of Python's `decimal` module. -/
def roundHalfEven (q : ℚ) : ℤ :=
  let n : ℤ := ⌊q⌋
  if q - n < 1/2 then n
  else if 1/2 < q - n then n + 1
  else if n % 2 = 0 then n else n + 1

/-- Embedding of `_money` from `accounting/services.py`:
`Decimal(amount).quantize(Decimal("0.01"))`, i.e. rounding to two decimal
places with half-even rounding. -/
def money (q : ℚ) : ℚ := (roundHalfEven (q * 100) : ℚ) / 100

/-- A rational is a whole number of cents, i.e. representable as a
two-decimal-place `Decimal`. -/
def IsCents (q : ℚ) : Prop := ∃ z : ℤ, q = (z : ℚ) / 100

theorem roundHalfEven_intCast (z : ℤ) : roundHalfEven (z : ℚ) = z := by
  unfold roundHalfEven
  rw [Int.floor_intCast]
  norm_num

theorem money_eq_of_isCents {q : ℚ} (h : IsCents q) : money q = q := by
  obtain ⟨z, rfl⟩ := h
  unfold money
  have h100 : ((z : ℚ) / 100) * 100 = (z : ℚ) := by
    field_simp
  rw [h100, roundHalfEven_intCast]

theorem isCents_money (q : ℚ) : IsCents (money q) := ⟨roundHalfEven (q * 100), rfl⟩

theorem money_money (q : ℚ) : money (money q) = money q :=
  money_eq_of_isCents (isCents_money q)

theorem IsCents.add {a b : ℚ} (ha : IsCents a) (hb : IsCents b) : IsCents (a + b) := by
  obtain ⟨x, rfl⟩ := ha
  obtain ⟨y, rfl⟩ := hb
  exact ⟨x + y, by push_cast; ring⟩

theorem IsCents.neg {a : ℚ} (ha : IsCents a) : IsCents (-a) := by
  obtain ⟨x, rfl⟩ := ha
  exact ⟨-x, by push_cast; ring⟩

theorem IsCents.sub {a b : ℚ} (ha : IsCents a) (hb : IsCents b) : IsCents (a - b) := by
  obtain ⟨x, rfl⟩ := ha
  obtain ⟨y, rfl⟩ := hb
  exact ⟨x - y, by push_cast; ring⟩

theorem IsCents.zero : IsCents 0 := ⟨0, by norm_num⟩

example : money 2 = 2 := by with_unfolding_all decide
example : money (2001/200) = 10 := by with_unfolding_all decide
example : money (2501/250) = 10 := by with_unfolding_all decide
example : money (-2001/200) = -10 := by with_unfolding_all decide
example : money (2003/200) = 1002/100 := by with_unfolding_all decide

/-! Facts about the decimal rendering of naturals.  Python f-strings render
integer ids with `str`, which for nonnegative integers is decimal notation,
embedded here as `Nat.repr`.  The idempotency keys built by the service are
colon-separated f-strings; to reason about their freshness we show that
decimal renderings contain only digits and that `Nat.repr` is injective. -/

def digitVal (c : Char) : Nat := c.toNat - '0'.toNat

theorem digitChar_isDigit {m : Nat} (h : m < 10) : (Nat.digitChar m).isDigit = true := by
  interval_cases m <;> decide

theorem digitVal_digitChar {m : Nat} (h : m < 10) : digitVal (Nat.digitChar m) = m := by
  interval_cases m <;> decide

theorem toDigitsCore_acc :
    ∀ fuel n ds, n < fuel →
      Nat.toDigitsCore 10 fuel n ds = Nat.toDigitsCore 10 fuel n [] ++ ds := by
  intro fuel
  induction fuel with
  | zero => intro n ds h; omega
  | succ fuel ih =>
    intro n ds h
    simp only [Nat.toDigitsCore]
    by_cases h0 : n / 10 = 0
    · simp [h0]
    · have hlt : n / 10 < fuel := by omega
      simp only [h0, if_false]
      rw [ih (n / 10) (Nat.digitChar (n % 10) :: ds) hlt,
        ih (n / 10) [Nat.digitChar (n % 10)] hlt]
      simp

theorem isDigit_of_mem_toDigitsCore :
    ∀ fuel n ds, (∀ c ∈ ds, c.isDigit = true) →
      ∀ c ∈ Nat.toDigitsCore 10 fuel n ds, c.isDigit = true := by
  intro fuel
  induction fuel with
  | zero => intro n ds hds; simpa [Nat.toDigitsCore] using hds
  | succ fuel ih =>
    intro n ds hds
    have hd : (Nat.digitChar (n % 10)).isDigit = true :=
      digitChar_isDigit (Nat.mod_lt _ (by omega))
    have hcons : ∀ c ∈ Nat.digitChar (n % 10) :: ds, c.isDigit = true := by
      intro c hc
      rcases List.mem_cons.mp hc with rfl | hc
      · exact hd
      · exact hds c hc
    simp only [Nat.toDigitsCore]
    by_cases h0 : n / 10 = 0
    · simpa [h0] using hcons
    · simp only [h0, if_false]
      exact ih (n / 10) (Nat.digitChar (n % 10) :: ds) hcons

def parseDigits (a : Nat) (ds : List Char) : Nat :=
  ds.foldl (fun acc c => 10 * acc + digitVal c) a

theorem parseDigits_append (a : Nat) (xs ys : List Char) :
    parseDigits a (xs ++ ys) = parseDigits (parseDigits a xs) ys := by
  simp [parseDigits, List.foldl_append]

theorem parseDigits_toDigitsCore :
    ∀ fuel n a, n < fuel →
      parseDigits a (Nat.toDigitsCore 10 fuel n []) =
        a * 10 ^ (Nat.toDigitsCore 10 fuel n []).length + n := by
  intro fuel
  induction fuel with
  | zero => intro n a h; omega
  | succ fuel ih =>
    intro n a h
    simp only [Nat.toDigitsCore]
    by_cases h0 : n / 10 = 0
    · have hn : n < 10 := by omega
      have : digitVal (Nat.digitChar (n % 10)) = n % 10 :=
        digitVal_digitChar (Nat.mod_lt _ (by omega))
      simp [h0, parseDigits, this]
      omega
    · have hlt : n / 10 < fuel := by omega
      simp only [h0, if_false]
      rw [toDigitsCore_acc fuel (n / 10) [Nat.digitChar (n % 10)] hlt]
      rw [parseDigits_append, ih (n / 10) a hlt]
      have hdv : digitVal (Nat.digitChar (n % 10)) = n % 10 :=
        digitVal_digitChar (Nat.mod_lt _ (by omega))
      simp [parseDigits, hdv, List.length_append, pow_succ]
      ring_nf
      omega

theorem parseDigits_toDigits (n : Nat) :
    parseDigits 0 (Nat.toDigits 10 n) = n := by
  have h := parseDigits_toDigitsCore (n + 1) n 0 (Nat.lt_succ_self n)
  simpa [Nat.toDigits] using h

theorem natRepr_inj {m n : Nat} (h : Nat.repr m = Nat.repr n) : m = n := by
  have hl : Nat.toDigits 10 m = Nat.toDigits 10 n := by
    have hdata := congrArg String.data h
    simpa [Nat.repr, List.asString] using hdata
  calc m = parseDigits 0 (Nat.toDigits 10 m) := (parseDigits_toDigits m).symm
    _ = parseDigits 0 (Nat.toDigits 10 n) := by rw [hl]
    _ = n := parseDigits_toDigits n

theorem isDigit_of_mem_repr {n : Nat} {c : Char} (hc : c ∈ (Nat.repr n).data) :
    c.isDigit = true := by
  have hmem : c ∈ Nat.toDigits 10 n := by simpa [Nat.repr, List.asString] using hc
  exact isDigit_of_mem_toDigitsCore (n + 1) n [] (by simp) c hmem

theorem ne_colon_of_mem_repr {n : Nat} {c : Char} (hc : c ∈ (Nat.repr n).data) :
    c ≠ ':' := by
  intro h
  subst h
  exact absurd (isDigit_of_mem_repr hc) (by decide)

theorem append_colon_cancel :
    ∀ (as as' bs bs' : List Char), (∀ c ∈ as, c ≠ ':') → (∀ c ∈ as', c ≠ ':') →
      as ++ ':' :: bs = as' ++ ':' :: bs' → as = as' ∧ bs = bs' := by
  intro as
  induction as with
  | nil =>
    intro as' bs bs' _ ha' h
    cases as' with
    | nil => simpa using h
    | cons x xs =>
      exfalso
      simp only [List.nil_append, List.cons_append, List.cons.injEq] at h
      exact ha' x (List.mem_cons_self x xs) h.1.symm
  | cons x xs ih =>
    intro as' bs bs' ha ha' h
    cases as' with
    | nil =>
      exfalso
      simp only [List.nil_append, List.cons_append, List.cons.injEq] at h
      exact ha x (List.mem_cons_self x xs) h.1
    | cons y ys =>
      simp only [List.cons_append, List.cons.injEq] at h
      obtain ⟨rfl, h2⟩ := h
      have hrec := ih ys bs bs' (fun c hc => ha c (List.mem_cons_of_mem _ hc))
        (fun c hc => ha' c (List.mem_cons_of_mem _ hc)) h2
      exact ⟨by rw [hrec.1], hrec.2⟩

/-! Account codes and idempotency keys.  These embed the f-strings of
`accounting/services.py`: `f"WALLET_USER_{user_id}"`,
`f"topup_online:{event.id}:{topup.id}"`, `f"topup_cash:{event.id}:{topup.id}"`,
`f"purchase:{event.id}:{reference_model}:{reference_id}"` and
`f"expiry:{event.id}:{user.id}:{date}"`. -/

def walletAccountCode (userId : Nat) : String :=
  "WALLET_USER_" ++ Nat.repr userId

def topupOnlineKey (eventId topupId : Nat) : String :=
  "topup_online:" ++ Nat.repr eventId ++ ":" ++ Nat.repr topupId

def topupCashKey (eventId topupId : Nat) : String :=
  "topup_cash:" ++ Nat.repr eventId ++ ":" ++ Nat.repr topupId

def purchaseKey (eventId : Nat) (referenceModel referenceId : String) : String :=
  "purchase:" ++ Nat.repr eventId ++ ":" ++ referenceModel ++ ":" ++ referenceId

def expiryKey (eventId userId : Nat) (date : String) : String :=
  "expiry:" ++ Nat.repr eventId ++ ":" ++ Nat.repr userId ++ ":" ++ date

theorem repr_data_inj {m n : Nat} (h : (Nat.repr m).data = (Nat.repr n).data) : m = n :=
  natRepr_inj (String.ext h)

theorem walletAccountCode_inj {u u' : Nat}
    (h : walletAccountCode u = walletAccountCode u') : u = u' := by
  have hd := congrArg String.data h
  simp only [walletAccountCode, String.data_append] at hd
  exact repr_data_inj (List.append_cancel_left hd)

theorem topupOnlineKey_data (e t : Nat) :
    (topupOnlineKey e t).data =
      "topup_online".data ++ ':' :: ((Nat.repr e).data ++ ':' :: (Nat.repr t).data) := by
  have h1 : ("topup_online:" : String).data = "topup_online".data ++ [':'] := rfl
  have h2 : (":" : String).data = [':'] := rfl
  simp [topupOnlineKey, String.data_append, h1, h2]

theorem topupCashKey_data (e t : Nat) :
    (topupCashKey e t).data =
      "topup_cash".data ++ ':' :: ((Nat.repr e).data ++ ':' :: (Nat.repr t).data) := by
  have h1 : ("topup_cash:" : String).data = "topup_cash".data ++ [':'] := rfl
  have h2 : (":" : String).data = [':'] := rfl
  simp [topupCashKey, String.data_append, h1, h2]

theorem purchaseKey_data (e : Nat) (m r : String) :
    (purchaseKey e m r).data =
      "purchase".data ++ ':' :: ((Nat.repr e).data ++ ':' :: (m.data ++ ':' :: r.data)) := by
  have h1 : ("purchase:" : String).data = "purchase".data ++ [':'] := rfl
  have h2 : (":" : String).data = [':'] := rfl
  simp [purchaseKey, String.data_append, h1, h2]

theorem expiryKey_data (e u : Nat) (d : String) :
    (expiryKey e u d).data =
      "expiry".data ++ ':' :: ((Nat.repr e).data ++ ':' :: ((Nat.repr u).data ++ ':' :: d.data)) := by
  have h1 : ("expiry:" : String).data = "expiry".data ++ [':'] := rfl
  have h2 : (":" : String).data = [':'] := rfl
  simp [expiryKey, String.data_append, h1, h2]

theorem tag_eq_of_key_eq {tag tag' : String} {x x' : List Char}
    (htag : ∀ c ∈ tag.data, c ≠ ':') (htag' : ∀ c ∈ tag'.data, c ≠ ':')
    (h : tag.data ++ ':' :: x = tag'.data ++ ':' :: x') : tag.data = tag'.data ∧ x = x' :=
  append_colon_cancel _ _ _ _ htag htag' h

theorem topupOnlineKey_inj {e t e' t' : Nat}
    (h : topupOnlineKey e t = topupOnlineKey e' t') : e = e' ∧ t = t' := by
  have hd := congrArg String.data h
  rw [topupOnlineKey_data, topupOnlineKey_data] at hd
  have h1 := tag_eq_of_key_eq (by decide) (by decide) hd
  have h2 := tag_eq_of_key_eq (fun c hc => ne_colon_of_mem_repr hc)
    (fun c hc => ne_colon_of_mem_repr hc) h1.2
  exact ⟨repr_data_inj h2.1, repr_data_inj h2.2⟩

theorem topupCashKey_inj {e t e' t' : Nat}
    (h : topupCashKey e t = topupCashKey e' t') : e = e' ∧ t = t' := by
  have hd := congrArg String.data h
  rw [topupCashKey_data, topupCashKey_data] at hd
  have h1 := tag_eq_of_key_eq (by decide) (by decide) hd
  have h2 := tag_eq_of_key_eq (fun c hc => ne_colon_of_mem_repr hc)
    (fun c hc => ne_colon_of_mem_repr hc) h1.2
  exact ⟨repr_data_inj h2.1, repr_data_inj h2.2⟩

theorem topupOnlineKey_ne_topupCashKey (e t e' t' : Nat) :
    topupOnlineKey e t ≠ topupCashKey e' t' := by
  intro h
  have hd := congrArg String.data h
  rw [topupOnlineKey_data, topupCashKey_data] at hd
  have h1 := tag_eq_of_key_eq (by decide) (by decide) hd
  exact absurd h1.1 (by decide)

theorem topupOnlineKey_ne_purchaseKey (e t e' : Nat) (m r : String) :
    topupOnlineKey e t ≠ purchaseKey e' m r := by
  intro h
  have hd := congrArg String.data h
  rw [topupOnlineKey_data, purchaseKey_data] at hd
  have h1 := tag_eq_of_key_eq (by decide) (by decide) hd
  exact absurd h1.1 (by decide)

theorem topupOnlineKey_ne_expiryKey (e t e' u : Nat) (d : String) :
    topupOnlineKey e t ≠ expiryKey e' u d := by
  intro h
  have hd := congrArg String.data h
  rw [topupOnlineKey_data, expiryKey_data] at hd
  have h1 := tag_eq_of_key_eq (by decide) (by decide) hd
  exact absurd h1.1 (by decide)

theorem topupCashKey_ne_purchaseKey (e t e' : Nat) (m r : String) :
    topupCashKey e t ≠ purchaseKey e' m r := by
  intro h
  have hd := congrArg String.data h
  rw [topupCashKey_data, purchaseKey_data] at hd
  have h1 := tag_eq_of_key_eq (by decide) (by decide) hd
  exact absurd h1.1 (by decide)

theorem topupCashKey_ne_expiryKey (e t e' u : Nat) (d : String) :
    topupCashKey e t ≠ expiryKey e' u d := by
  intro h
  have hd := congrArg String.data h
  rw [topupCashKey_data, expiryKey_data] at hd
  have h1 := tag_eq_of_key_eq (by decide) (by decide) hd
  exact absurd h1.1 (by decide)

theorem walletAccountCode_ne_cash (u : Nat) : walletAccountCode u ≠ "PLATFORM_CASH" := by
  intro h
  have hd := congrArg String.data h
  have h1 : ("WALLET_USER_" : String).data = 'W' :: "ALLET_USER_".data := rfl
  simp only [walletAccountCode, String.data_append, h1, List.cons_append] at hd
  exact absurd (List.head_eq_of_cons_eq hd) (by decide)

theorem walletAccountCode_ne_revenue (u : Nat) : walletAccountCode u ≠ "PLATFORM_REVENUE" := by
  intro h
  have hd := congrArg String.data h
  have h1 : ("WALLET_USER_" : String).data = 'W' :: "ALLET_USER_".data := rfl
  simp only [walletAccountCode, String.data_append, h1, List.cons_append] at hd
  exact absurd (List.head_eq_of_cons_eq hd) (by decide)

theorem walletAccountCode_ne_expiry (u : Nat) : walletAccountCode u ≠ "PLATFORM_EXPIRY" := by
  intro h
  have hd := congrArg String.data h
  have h1 : ("WALLET_USER_" : String).data = 'W' :: "ALLET_USER_".data := rfl
  simp only [walletAccountCode, String.data_append, h1, List.cons_append] at hd
  exact absurd (List.head_eq_of_cons_eq hd) (by decide)

/-! Data model, from `accounting/models.py` and `events/models.py`.  Django
rows are Lean structures; foreign keys to users, stalls and events are the
referenced primary keys.  The `LedgerEntry.account` foreign key is modelled by
the account's natural key `(event, code)`, which is unique
(`uniq_ledger_account_code_by_event`) and immutable, and the
`LedgerEntry.transaction` foreign key by the embedded transaction row, which
is immutable after creation. -/

inductive LedgerAccountType
  | asset
  | liability
  | revenue
  | expense
  | equity
deriving DecidableEq

inductive LedgerTxType
  | topup_online
  | topup_cash
  | purchase
  | refund
  | adjustment
  | expiry
deriving DecidableEq

inductive LedgerTxStatus
  | posted
  | void
deriving DecidableEq

inductive TopupChannel
  | online
  | cash_staff
deriving DecidableEq

inductive TopupStatus
  | success
  | pending
  | failed
deriving DecidableEq

/-- An event campaign, restricted to what the accounting service reads:
its id and whether its status is `CampaignStatus.CLOSED`. -/
structure Event where
  id : Nat
  closed : Bool
deriving DecidableEq

structure User where
  id : Nat
  username : String
deriving DecidableEq

/-- Python exceptions raised by the service layer: `ValueError(msg)` and
`events.services.EventClosedError(msg)`. -/
inductive Err
  | valueError (msg : String)
  | eventClosedError (msg : String)
  | integrityError (msg : String)
deriving DecidableEq

/-- Embedding of `events.services.assert_event_writable`. -/
def assert_event_writable (event : Event) : Except Err Unit :=
  if event.closed then
    .error (.eventClosedError "El evento esta cerrado y en modo solo lectura.")
  else .ok ()

structure LedgerAccount where
  event : Nat
  code : String
  name : String
  account_type : LedgerAccountType
  owner_user : Option Nat
  owner_stall : Option Nat
  is_active : Bool
deriving DecidableEq

structure LedgerTransaction where
  id : Nat
  event : Nat
  tx_type : LedgerTxType
  status : LedgerTxStatus
  idempotency_key : String
  reference_model : String
  reference_id : String
  created_by_user : Option Nat
deriving DecidableEq

structure LedgerEntry where
  transaction : LedgerTransaction
  account_event : Nat
  account_code : String
  amount_mxn_signed : ℚ
  description : String
deriving DecidableEq

structure WalletBalanceCache where
  event : Nat
  user : Nat
  balance_ucoin : ℚ
deriving DecidableEq

structure TopupRecord where
  id : Nat
  event : Nat
  user : Nat
  channel : TopupChannel
  amount_ucoin : ℚ
  status : TopupStatus
  provider : String
  provider_ref : String
  source_reference : String
  staff_user : Option Nat
deriving DecidableEq

structure StaffCreditGrant where
  id : Nat
  event : Nat
  client_user : Nat
  staff_user : Nat
  amount_ucoin : ℚ
  reason : String
deriving DecidableEq

/-- The durable store: one list per table, newest row first, plus counters
producing fresh primary keys (the source uses autoincrement ids for rows and
`uuid4` for transactions; all that matters is freshness). -/
structure DB where
  accounts : List LedgerAccount
  transactions : List LedgerTransaction
  entries : List LedgerEntry
  caches : List WalletBalanceCache
  topups : List TopupRecord
  grants : List StaffCreditGrant
  nextTxId : Nat
  nextTopupId : Nat
  nextGrantId : Nat
deriving DecidableEq

def DB.empty : DB := ⟨[], [], [], [], [], [], 0, 0, 0⟩

/-- Write back one `WalletBalanceCache` row (`cache.save(...)`): every row
with the same `(event, user)` unique key takes the new value. -/
def saveCache (db : DB) (row : WalletBalanceCache) : DB :=
  { db with caches := db.caches.map fun c =>
      if c.event == row.event && c.user == row.user then row else c }

def findCache (db : DB) (eventId userId : Nat) : Option WalletBalanceCache :=
  db.caches.find? fun c => c.event == eventId && c.user == userId

/-- The balance the cache table currently shows for `(eventId, userId)`; `0`
when no row exists yet (a fresh row is created with the field default `0`). -/
def cacheBalance (db : DB) (eventId userId : Nat) : ℚ :=
  match findCache db eventId userId with
  | some c => c.balance_ucoin
  | none => 0

namespace WalletService

/-- Embedding of `WalletService.ensure_account`: get-or-create a
`LedgerAccount` by `(event, code)`. -/
def ensure_account (db : DB) (event : Event) (code name : String)
    (account_type : LedgerAccountType) (owner_user owner_stall : Option Nat) :
    DB × LedgerAccount :=
  match db.accounts.find? fun a => a.event == event.id && a.code == code with
  | some a => (db, a)
  | none =>
    let a : LedgerAccount :=
      ⟨event.id, code, name, account_type, owner_user, owner_stall, true⟩
    ({ db with accounts := a :: db.accounts }, a)

/-- Embedding of `WalletService.ensure_platform_accounts`. -/
def ensure_platform_accounts (db : DB) (event : Event) :
    DB × (LedgerAccount × LedgerAccount × LedgerAccount) :=
  let p1 := ensure_account db event "PLATFORM_CASH" "Caja plataforma" .asset none none
  let p2 := ensure_account p1.1 event "PLATFORM_REVENUE" "Ingreso plataforma" .revenue none none
  let p3 := ensure_account p2.1 event "PLATFORM_EXPIRY" "Ingreso por expiracion" .revenue none none
  (p3.1, (p1.2, p2.2, p3.2))

/-- Embedding of `WalletService.ensure_user_wallet_account`. -/
def ensure_user_wallet_account (db : DB) (event : Event) (user : User) :
    DB × LedgerAccount :=
  ensure_account db event (walletAccountCode user.id) ("Wallet de " ++ user.username)
    .liability (some user.id) none

/-- Embedding of `WalletService.get_balance_cache_for_update`:
`select_for_update().get_or_create(event=event, user=user)`.  The row lock
itself has no observable effect in this sequential embedding. -/
def get_balance_cache_for_update (db : DB) (event : Event) (user : User) :
    DB × WalletBalanceCache :=
  match findCache db event.id user.id with
  | some c => (db, c)
  | none =>
    let c : WalletBalanceCache := ⟨event.id, user.id, 0⟩
    ({ db with caches := c :: db.caches }, c)

/-- Embedding of `WalletService.get_balance`. -/
def get_balance (db : DB) (event : Event) (user : User) : DB × ℚ :=
  let p := get_balance_cache_for_update db event user
  (p.1, p.2.balance_ucoin)

/-- Embedding of `WalletService.set_balance`. -/
def set_balance (db : DB) (event : Event) (user : User) (balance : ℚ) :
    DB × WalletBalanceCache :=
  let p := get_balance_cache_for_update db event user
  let c : WalletBalanceCache := { p.2 with balance_ucoin := money balance }
  (saveCache p.1 c, c)

/-- Embedding of `WalletService.apply_balance_delta`. -/
def apply_balance_delta (db : DB) (event : Event) (user : User) (delta : ℚ) :
    DB × WalletBalanceCache :=
  let p := get_balance_cache_for_update db event user
  let c : WalletBalanceCache :=
    { p.2 with balance_ucoin := money (p.2.balance_ucoin + money delta) }
  (saveCache p.1 c, c)

/-- Embedding of `WalletService.post_transaction`.  The source creates the
transaction row and its entries and only then checks the quantized sum,
raising `ValueError` when it is nonzero; before that, each
`LedgerEntry.objects.create` whose quantized amount is zero violates the
database constraint `check_ledger_entry_nonzero_amount`
(`accounting/models.py`) and raises `IntegrityError` at the insert, modelled
by the `integrityError` branch.  The enclosing `transaction.atomic` block
(every caller runs inside one) rolls all of those writes back, which the
`.error` branches model by dropping the written state. -/
def post_transaction (db : DB) (event : Event) (tx_type : LedgerTxType)
    (idempotency_key : String) (created_by_user : Option Nat)
    (reference_model reference_id : String)
    (entries : List (LedgerAccount × ℚ × String)) :
    Except Err (DB × LedgerTransaction) :=
  match db.transactions.find? fun t => t.idempotency_key == idempotency_key with
  | some existing => .ok (db, existing)
  | none =>
    let tx : LedgerTransaction :=
      ⟨db.nextTxId, event.id, tx_type, .posted, idempotency_key,
        reference_model, reference_id, created_by_user⟩
    let newEntries : List LedgerEntry := entries.map fun e =>
      ⟨tx, e.1.event, e.1.code, money e.2.1, e.2.2⟩
    let db2 : DB := { db with
      transactions := tx :: db.transactions,
      nextTxId := db.nextTxId + 1,
      entries := newEntries ++ db.entries }
    let amount_sum : ℚ := (entries.map fun e => money e.2.1).sum
    if entries.any (fun e => money e.2.1 == 0) then
      .error (.integrityError "check_ledger_entry_nonzero_amount")
    else if amount_sum ≠ 0 then
      .error (.valueError "La transaccion contable no esta balanceada.")
    else .ok (db2, tx)

end WalletService

namespace WalletService

/-- Embedding of `WalletService.record_online_topup` (`@transaction.atomic`).
The `source_reference` branch is Django's
`TopupRecord.objects.get_or_create(event=..., source_reference=..., defaults=...)`
followed by `if not created: return topup`. -/
def record_online_topup (db : DB) (event : Event) (user : User) (amount_ucoin : ℚ)
    (provider provider_ref source_reference : String) : Except Err (DB × TopupRecord) :=
  match assert_event_writable event with
  | .error e => .error e
  | .ok _ =>
    let amount := money amount_ucoin
    if amount ≤ 0 then .error (.valueError "El monto de recarga debe ser mayor a cero.")
    else
      let step : DB × TopupRecord × Bool :=
        if source_reference ≠ "" then
          match db.topups.find? fun t =>
              t.event == event.id && t.source_reference == source_reference with
          | some t => (db, t, false)
          | none =>
            let topup : TopupRecord :=
              ⟨db.nextTopupId, event.id, user.id, .online, amount, .success,
                provider, provider_ref, source_reference, none⟩
            ({ db with
                topups := topup :: db.topups,
                nextTopupId := db.nextTopupId + 1 }, topup, true)
        else
          let topup : TopupRecord :=
            ⟨db.nextTopupId, event.id, user.id, .online, amount, .success,
              provider, provider_ref, "", none⟩
          ({ db with
              topups := topup :: db.topups,
              nextTopupId := db.nextTopupId + 1 }, topup, true)
      let db1 := step.1
      let topup := step.2.1
      if step.2.2 = false then .ok (db1, topup)
      else
        let pa := ensure_platform_accounts db1 event
        let wa := ensure_user_wallet_account pa.1 event user
        match post_transaction wa.1 event .topup_online (topupOnlineKey event.id topup.id)
          (some user.id) "topup_record" (Nat.repr topup.id)
          [(wa.2, amount, "Aumento de saldo de usuario"),
            (pa.2.1, -amount, "Entrada en caja por recarga")] with
        | .error e => .error e
        | .ok q =>
          let r := apply_balance_delta q.1 event user amount
          .ok (r.1, topup)

/-- Embedding of `WalletService.grant_cash_topup` (`@transaction.atomic`). -/
def grant_cash_topup (db : DB) (event : Event) (client_user staff_user : User)
    (amount_ucoin : ℚ) (reason : String) :
    Except Err (DB × TopupRecord × StaffCreditGrant) :=
  match assert_event_writable event with
  | .error e => .error e
  | .ok _ =>
    let amount := money amount_ucoin
    if amount ≤ 0 then .error (.valueError "El monto debe ser mayor a cero.")
    else
      let topup : TopupRecord :=
        ⟨db.nextTopupId, event.id, client_user.id, .cash_staff, amount, .success,
          "cash", "staff", "", some staff_user.id⟩
      let db1 : DB := { db with
        topups := topup :: db.topups,
        nextTopupId := db.nextTopupId + 1 }
      let grant : StaffCreditGrant :=
        ⟨db1.nextGrantId, event.id, client_user.id, staff_user.id, amount, reason⟩
      let db2 : DB := { db1 with
        grants := grant :: db1.grants,
        nextGrantId := db1.nextGrantId + 1 }
      let pa := ensure_platform_accounts db2 event
      let wa := ensure_user_wallet_account pa.1 event client_user
      match post_transaction wa.1 event .topup_cash (topupCashKey event.id topup.id)
        (some staff_user.id) "topup_record" (Nat.repr topup.id)
        [(wa.2, amount, "Aumento de saldo por recarga en efectivo"),
          (pa.2.1, -amount, "Entrada en caja por staff")] with
      | .error e => .error e
      | .ok q =>
        let r := apply_balance_delta q.1 event client_user amount
        .ok (r.1, topup, grant)

/-- Embedding of `WalletService.record_purchase_mirror`.  The existence check
on the idempotency key happens before `post_transaction`, and the cache is
only decremented when the key was fresh. -/
def record_purchase_mirror (db : DB) (event : Event) (user : User) (amount_ucoin : ℚ)
    (reference_model reference_id : String) (created_by_user : Option Nat)
    (balance_cache : Option WalletBalanceCache) : Except Err (DB × WalletBalanceCache) :=
  match assert_event_writable event with
  | .error e => .error e
  | .ok _ =>
    let amount := money amount_ucoin
    if amount ≤ 0 then .error (.valueError "El monto de compra debe ser mayor a cero.")
    else
      let p := match balance_cache with
        | some c => (db, c)
        | none => get_balance_cache_for_update db event user
      let wallet_cache := p.2
      let idempotency_key := purchaseKey event.id reference_model reference_id
      let tx_already_exists :=
        p.1.transactions.any fun t => t.idempotency_key == idempotency_key
      let pa := ensure_platform_accounts p.1 event
      let wa := ensure_user_wallet_account pa.1 event user
      match post_transaction wa.1 event .purchase idempotency_key
        (some (created_by_user.getD user.id)) reference_model reference_id
        [(wa.2, -amount, "Descuento de wallet por compra"),
          (pa.2.2.1, amount, "Reconocimiento de ingreso")] with
      | .error e => .error e
      | .ok q =>
        if tx_already_exists then .ok (q.1, wallet_cache)
        else
          let c : WalletBalanceCache :=
            { wallet_cache with balance_ucoin := money (wallet_cache.balance_ucoin - amount) }
          .ok (saveCache q.1 c, c)

/-- Embedding of `WalletService.record_purchase` (`@transaction.atomic`):
locks the cache row, checks funds, then delegates to the mirror path. -/
def record_purchase (db : DB) (event : Event) (user : User) (amount_ucoin : ℚ)
    (reference_model reference_id : String) (created_by_user : Option Nat) :
    Except Err (DB × WalletBalanceCache) :=
  match assert_event_writable event with
  | .error e => .error e
  | .ok _ =>
    let amount := money amount_ucoin
    if amount ≤ 0 then .error (.valueError "El monto de compra debe ser mayor a cero.")
    else
      let p := get_balance_cache_for_update db event user
      if p.2.balance_ucoin < amount then .error (.valueError "Saldo insuficiente.")
      else record_purchase_mirror p.1 event user amount reference_model reference_id
        (some (created_by_user.getD user.id)) (some p.2)

/-- Embedding of `WalletService.expire_remaining_balance`
(`@transaction.atomic`).  `today` stands for the nondeterministic input
`timezone.now().date().isoformat()`. -/
def expire_remaining_balance (db : DB) (event : Event) (user : User)
    (created_by_user : Option Nat) (today : String) :
    Except Err (DB × WalletBalanceCache) :=
  match assert_event_writable event with
  | .error e => .error e
  | .ok _ =>
    let p := get_balance_cache_for_update db event user
    let wallet_cache := p.2
    let amount := money wallet_cache.balance_ucoin
    if amount ≤ 0 then .ok (p.1, wallet_cache)
    else
      let pa := ensure_platform_accounts p.1 event
      let wa := ensure_user_wallet_account pa.1 event user
      match post_transaction wa.1 event .expiry (expiryKey event.id user.id today)
        created_by_user "event_campaign" (Nat.repr event.id)
        [(wa.2, -amount, "Expiracion de saldo al cierre de evento"),
          (pa.2.2.2, amount, "Ingreso por expiracion")] with
      | .error e => .error e
      | .ok q =>
        let c : WalletBalanceCache := { wallet_cache with balance_ucoin := 0 }
        .ok (saveCache q.1 c, c)

/-- Embedding of `WalletService.reconcile_balance_from_ledger`: recompute the
balance as the signed sum of ledger entries against the user's wallet account
within the event, and overwrite the cache through `set_balance`. -/
def reconcile_balance_from_ledger (db : DB) (event : Event) (user : User) : DB × ℚ :=
  let wa := ensure_user_wallet_account db event user
  let total : ℚ :=
    ((wa.1.entries.filter fun en =>
        en.transaction.event == event.id && en.account_event == wa.2.event &&
          en.account_code == wa.2.code).map
      fun en => en.amount_mxn_signed).sum
  let p := set_balance wa.1 event user total
  (p.1, p.2.balance_ucoin)

end WalletService

/-- The signed sum of all ledger entries against the wallet account of
`userId` within `eventId` (the quantity `reconcile_balance_from_ledger`
recomputes). -/
def walletLedgerSum (db : DB) (eventId userId : Nat) : ℚ :=
  ((db.entries.filter fun en =>
      en.transaction.event == eventId && en.account_event == eventId &&
        en.account_code == walletAccountCode userId).map
    fun en => en.amount_mxn_signed).sum

deriving instance DecidableEq for Except

/-- One call into the accounting service, to reason about arbitrary finite
sequences of operations (spec section 8, property 3). -/
inductive Op
  | onlineTopup (event : Event) (user : User) (amount : ℚ)
      (provider provider_ref source_reference : String)
  | cashTopup (event : Event) (client_user staff_user : User) (amount : ℚ)
      (reason : String)
  | purchase (event : Event) (user : User) (amount : ℚ)
      (reference_model reference_id : String) (created_by : Option Nat)
  | purchaseMirror (event : Event) (user : User) (amount : ℚ)
      (reference_model reference_id : String) (created_by : Option Nat)
  | expire (event : Event) (user : User) (created_by : Option Nat) (today : String)

def applyOp (db : DB) : Op → Except Err DB
  | .onlineTopup e u a p pr sr =>
    (WalletService.record_online_topup db e u a p pr sr).map (·.1)
  | .cashTopup e cu su a r =>
    (WalletService.grant_cash_topup db e cu su a r).map (·.1)
  | .purchase e u a m r cb =>
    (WalletService.record_purchase db e u a m r cb).map (·.1)
  | .purchaseMirror e u a m r cb =>
    (WalletService.record_purchase_mirror db e u a m r cb none).map (·.1)
  | .expire e u cb d =>
    (WalletService.expire_remaining_balance db e u cb d).map (·.1)

/-- Run a sequence of operations; `none` as soon as one raises. -/
def runOps (db : DB) : List Op → Option DB
  | [] => some db
  | op :: rest =>
    match applyOp db op with
    | .ok db' => runOps db' rest
    | .error _ => none

/-- An `expire_remaining_balance` call is benign unless it happens with a
positive cached balance while a ledger transaction already carries that
day's expiry idempotency key. -/
def goodOpB (db : DB) : Op → Bool
  | .expire e u _ d =>
    !(decide (0 < cacheBalance db e.id u.id)) ||
      db.transactions.all fun t => t.idempotency_key != expiryKey e.id u.id d
  | _ => true

def goodRunB (db : DB) : List Op → Bool
  | [] => true
  | op :: rest =>
    goodOpB db op &&
      match applyOp db op with
      | .ok db' => goodRunB db' rest
      | .error _ => true

/-- Every idempotency key stored in the ledger was produced by one of the
four key builders, and topup-derived keys only embed already-consumed topup
ids.  This is what makes a fresh topup's key collision-free. -/
def KeyOwned (bound : Nat) (k : String) : Prop :=
  (∃ e t, k = topupOnlineKey e t ∧ t < bound) ∨
  (∃ e t, k = topupCashKey e t ∧ t < bound) ∨
  (∃ e m r, k = purchaseKey e m r) ∨
  (∃ e u d, k = expiryKey e u d)

/-- Reachable-state invariant tying the wallet balance cache to the ledger. -/
structure GoodState (db : DB) : Prop where
  keys : ∀ tx ∈ db.transactions, KeyOwned db.nextTopupId tx.idempotency_key
  centsEntries : ∀ en ∈ db.entries, IsCents en.amount_mxn_signed
  centsCaches : ∀ c ∈ db.caches, IsCents c.balance_ucoin
  balanced : ∀ e u, cacheBalance db e u = walletLedgerSum db e u

theorem goodState_empty : GoodState DB.empty := by
  refine ⟨?_, ?_, ?_, ?_⟩ <;> intro a ha <;>
    simp [DB.empty, cacheBalance, findCache, walletLedgerSum] at ha ⊢

namespace WalletService

theorem ensure_account_transactions (db : DB) (event : Event) (code name : String)
    (ty : LedgerAccountType) (ou os : Option Nat) :
    (ensure_account db event code name ty ou os).1.transactions = db.transactions := by
  unfold ensure_account
  split <;> rfl

theorem ensure_account_entries (db : DB) (event : Event) (code name : String)
    (ty : LedgerAccountType) (ou os : Option Nat) :
    (ensure_account db event code name ty ou os).1.entries = db.entries := by
  unfold ensure_account
  split <;> rfl

theorem ensure_account_caches (db : DB) (event : Event) (code name : String)
    (ty : LedgerAccountType) (ou os : Option Nat) :
    (ensure_account db event code name ty ou os).1.caches = db.caches := by
  unfold ensure_account
  split <;> rfl

theorem ensure_account_nextTopupId (db : DB) (event : Event) (code name : String)
    (ty : LedgerAccountType) (ou os : Option Nat) :
    (ensure_account db event code name ty ou os).1.nextTopupId = db.nextTopupId := by
  unfold ensure_account
  split <;> rfl

theorem ensure_account_event (db : DB) (event : Event) (code name : String)
    (ty : LedgerAccountType) (ou os : Option Nat) :
    (ensure_account db event code name ty ou os).2.event = event.id := by
  unfold ensure_account
  split
  case h_1 a ha =>
    have hp := List.find?_some ha
    simp only [Bool.and_eq_true, beq_iff_eq] at hp
    exact hp.1
  case h_2 => rfl

theorem ensure_account_code (db : DB) (event : Event) (code name : String)
    (ty : LedgerAccountType) (ou os : Option Nat) :
    (ensure_account db event code name ty ou os).2.code = code := by
  unfold ensure_account
  split
  case h_1 a ha =>
    have hp := List.find?_some ha
    simp only [Bool.and_eq_true, beq_iff_eq] at hp
    exact hp.2
  case h_2 => rfl

theorem ensure_platform_accounts_transactions (db : DB) (event : Event) :
    (ensure_platform_accounts db event).1.transactions = db.transactions := by
  unfold ensure_platform_accounts
  simp [ensure_account_transactions]

theorem ensure_platform_accounts_entries (db : DB) (event : Event) :
    (ensure_platform_accounts db event).1.entries = db.entries := by
  unfold ensure_platform_accounts
  simp [ensure_account_entries]

theorem ensure_platform_accounts_caches (db : DB) (event : Event) :
    (ensure_platform_accounts db event).1.caches = db.caches := by
  unfold ensure_platform_accounts
  simp [ensure_account_caches]

theorem ensure_platform_accounts_nextTopupId (db : DB) (event : Event) :
    (ensure_platform_accounts db event).1.nextTopupId = db.nextTopupId := by
  unfold ensure_platform_accounts
  simp [ensure_account_nextTopupId]

theorem ensure_platform_accounts_cash_code (db : DB) (event : Event) :
    (ensure_platform_accounts db event).2.1.code = "PLATFORM_CASH" := by
  unfold ensure_platform_accounts
  simp [ensure_account_code]

theorem ensure_platform_accounts_revenue_code (db : DB) (event : Event) :
    (ensure_platform_accounts db event).2.2.1.code = "PLATFORM_REVENUE" := by
  unfold ensure_platform_accounts
  simp [ensure_account_code]

theorem ensure_platform_accounts_expiry_code (db : DB) (event : Event) :
    (ensure_platform_accounts db event).2.2.2.code = "PLATFORM_EXPIRY" := by
  unfold ensure_platform_accounts
  simp [ensure_account_code]

theorem ensure_user_wallet_account_transactions (db : DB) (event : Event) (user : User) :
    (ensure_user_wallet_account db event user).1.transactions = db.transactions :=
  ensure_account_transactions ..

theorem ensure_user_wallet_account_entries (db : DB) (event : Event) (user : User) :
    (ensure_user_wallet_account db event user).1.entries = db.entries :=
  ensure_account_entries ..

theorem ensure_user_wallet_account_caches (db : DB) (event : Event) (user : User) :
    (ensure_user_wallet_account db event user).1.caches = db.caches :=
  ensure_account_caches ..

theorem ensure_user_wallet_account_nextTopupId (db : DB) (event : Event) (user : User) :
    (ensure_user_wallet_account db event user).1.nextTopupId = db.nextTopupId :=
  ensure_account_nextTopupId ..

theorem ensure_user_wallet_account_event (db : DB) (event : Event) (user : User) :
    (ensure_user_wallet_account db event user).2.event = event.id :=
  ensure_account_event ..

theorem ensure_user_wallet_account_code (db : DB) (event : Event) (user : User) :
    (ensure_user_wallet_account db event user).2.code = walletAccountCode user.id :=
  ensure_account_code ..

end WalletService

theorem find?_map_replace_self (rows : List WalletBalanceCache)
    (row c : WalletBalanceCache)
    (h : rows.find? (fun x => x.event == row.event && x.user == row.user) = some c) :
    (rows.map fun x => if x.event == row.event && x.user == row.user then row else x).find?
      (fun x => x.event == row.event && x.user == row.user) = some row := by
  induction rows with
  | nil => simp at h
  | cons r rs ih =>
    simp only [List.map_cons]
    by_cases hr : (r.event == row.event && r.user == row.user) = true
    · rw [if_pos hr]
      exact List.find?_cons_of_pos _ (by simp)
    · rw [if_neg hr]
      rw [List.find?_cons_of_neg (p := fun (x : WalletBalanceCache) => x.event == row.event && x.user == row.user) _ hr] at h
      rw [List.find?_cons_of_neg (p := fun (x : WalletBalanceCache) => x.event == row.event && x.user == row.user) _ hr]
      exact ih h

theorem find?_map_replace_other (rows : List WalletBalanceCache)
    (row : WalletBalanceCache) (e u : Nat) (hne : ¬(e = row.event ∧ u = row.user)) :
    (rows.map fun x => if x.event == row.event && x.user == row.user then row else x).find?
        (fun x => x.event == e && x.user == u) =
      rows.find? (fun x => x.event == e && x.user == u) := by
  induction rows with
  | nil => simp
  | cons r rs ih =>
    by_cases hr : (r.event == row.event && r.user == row.user) = true
    · have hrow : (row.event == e && row.user == u) = false := by
        simp only [Bool.and_eq_true, beq_iff_eq] at hr ⊢
        simp only [Bool.and_eq_false_iff, beq_eq_false_iff_ne]
        by_contra hcon
        push_neg at hcon
        exact hne ⟨hcon.1.symm, hcon.2.symm⟩
      have hrold : (r.event == e && r.user == u) = false := by
        simp only [Bool.and_eq_true, beq_iff_eq] at hr
        simp only [Bool.and_eq_false_iff, beq_eq_false_iff_ne]
        by_contra hcon
        push_neg at hcon
        exact hne ⟨by rw [← hcon.1, hr.1], by rw [← hcon.2, hr.2]⟩
      simp only [List.map_cons, if_pos hr]
      rw [List.find?_cons_of_neg (p := fun (x : WalletBalanceCache) => x.event == e && x.user == u) _ (by simp [hrow]),
        List.find?_cons_of_neg (p := fun (x : WalletBalanceCache) => x.event == e && x.user == u) _ (by simp [hrold])]
      exact ih
    · simp only [List.map_cons, if_neg hr]
      by_cases hp : (r.event == e && r.user == u) = true
      · rw [List.find?_cons_of_pos (p := fun (x : WalletBalanceCache) => x.event == e && x.user == u) _ hp,
          List.find?_cons_of_pos (p := fun (x : WalletBalanceCache) => x.event == e && x.user == u) _ hp]
      · rw [List.find?_cons_of_neg (p := fun (x : WalletBalanceCache) => x.event == e && x.user == u) _ hp,
          List.find?_cons_of_neg (p := fun (x : WalletBalanceCache) => x.event == e && x.user == u) _ hp]
        exact ih

theorem saveCache_transactions (db : DB) (row : WalletBalanceCache) :
    (saveCache db row).transactions = db.transactions := rfl

theorem saveCache_entries (db : DB) (row : WalletBalanceCache) :
    (saveCache db row).entries = db.entries := rfl

theorem saveCache_nextTopupId (db : DB) (row : WalletBalanceCache) :
    (saveCache db row).nextTopupId = db.nextTopupId := rfl

theorem cacheBalance_saveCache_self (db : DB) (row c : WalletBalanceCache)
    (h : findCache db row.event row.user = some c) :
    cacheBalance (saveCache db row) row.event row.user = row.balance_ucoin := by
  unfold cacheBalance findCache saveCache
  simp only
  rw [find?_map_replace_self db.caches row c h]

theorem cacheBalance_saveCache_other (db : DB) (row : WalletBalanceCache) (e u : Nat)
    (hne : ¬(e = row.event ∧ u = row.user)) :
    cacheBalance (saveCache db row) e u = cacheBalance db e u := by
  unfold cacheBalance findCache saveCache
  simp only
  rw [find?_map_replace_other db.caches row e u hne]

theorem centsCaches_saveCache (db : DB) (row : WalletBalanceCache)
    (hall : ∀ c ∈ db.caches, IsCents c.balance_ucoin)
    (hrow : IsCents row.balance_ucoin) :
    ∀ c ∈ (saveCache db row).caches, IsCents c.balance_ucoin := by
  intro c hc
  unfold saveCache at hc
  simp only [List.mem_map] at hc
  obtain ⟨x, hx, hxc⟩ := hc
  by_cases hmatch : (x.event == row.event && x.user == row.user) = true
  · rw [if_pos hmatch] at hxc
    exact hxc ▸ hrow
  · rw [if_neg hmatch] at hxc
    exact hxc ▸ hall x hx

namespace WalletService

theorem get_cache_transactions (db : DB) (event : Event) (user : User) :
    (get_balance_cache_for_update db event user).1.transactions = db.transactions := by
  unfold get_balance_cache_for_update
  split <;> rfl

theorem get_cache_entries (db : DB) (event : Event) (user : User) :
    (get_balance_cache_for_update db event user).1.entries = db.entries := by
  unfold get_balance_cache_for_update
  split <;> rfl

theorem get_cache_accounts (db : DB) (event : Event) (user : User) :
    (get_balance_cache_for_update db event user).1.accounts = db.accounts := by
  unfold get_balance_cache_for_update
  split <;> rfl

theorem get_cache_nextTopupId (db : DB) (event : Event) (user : User) :
    (get_balance_cache_for_update db event user).1.nextTopupId = db.nextTopupId := by
  unfold get_balance_cache_for_update
  split <;> rfl

theorem get_cache_row_event (db : DB) (event : Event) (user : User) :
    (get_balance_cache_for_update db event user).2.event = event.id := by
  unfold get_balance_cache_for_update
  split
  case h_1 c hc =>
    have hp := List.find?_some hc
    simp only [Bool.and_eq_true, beq_iff_eq] at hp
    exact hp.1
  case h_2 => rfl

theorem get_cache_row_user (db : DB) (event : Event) (user : User) :
    (get_balance_cache_for_update db event user).2.user = user.id := by
  unfold get_balance_cache_for_update
  split
  case h_1 c hc =>
    have hp := List.find?_some hc
    simp only [Bool.and_eq_true, beq_iff_eq] at hp
    exact hp.2
  case h_2 => rfl

theorem get_cache_row_balance (db : DB) (event : Event) (user : User) :
    (get_balance_cache_for_update db event user).2.balance_ucoin =
      cacheBalance db event.id user.id := by
  unfold get_balance_cache_for_update cacheBalance
  cases hc : findCache db event.id user.id <;> simp [hc]

theorem get_cache_cacheBalance (db : DB) (event : Event) (user : User) (e u : Nat) :
    cacheBalance (get_balance_cache_for_update db event user).1 e u =
      cacheBalance db e u := by
  unfold get_balance_cache_for_update
  cases hc : findCache db event.id user.id with
  | some c => rfl
  | none =>
    simp only
    unfold cacheBalance findCache
    simp only
    by_cases hkey : (event.id == e && user.id == u) = true
    · rw [List.find?_cons_of_pos (p := fun (c : WalletBalanceCache) => c.event == e && c.user == u) _ hkey]
      simp only [Bool.and_eq_true, beq_iff_eq] at hkey
      obtain ⟨rfl, rfl⟩ := hkey
      unfold findCache at hc
      rw [hc]
    · rw [List.find?_cons_of_neg (p := fun (c : WalletBalanceCache) => c.event == e && c.user == u) _ hkey]

theorem get_cache_found (db : DB) (event : Event) (user : User) :
    findCache (get_balance_cache_for_update db event user).1 event.id user.id =
      some (get_balance_cache_for_update db event user).2 := by
  unfold get_balance_cache_for_update
  cases hc : findCache db event.id user.id with
  | some c => simpa using hc
  | none =>
    simp only
    unfold findCache
    rw [List.find?_cons_of_pos
      (p := fun (c : WalletBalanceCache) => c.event == event.id && c.user == user.id) _ (by simp)]

theorem get_cache_centsCaches (db : DB) (event : Event) (user : User)
    (hall : ∀ c ∈ db.caches, IsCents c.balance_ucoin) :
    ∀ c ∈ (get_balance_cache_for_update db event user).1.caches,
      IsCents c.balance_ucoin := by
  unfold get_balance_cache_for_update
  cases hc : findCache db event.id user.id with
  | some c => simpa using hall
  | none =>
    simp only
    intro c hc'
    rcases List.mem_cons.mp hc' with rfl | hmem
    · exact IsCents.zero
    · exact hall c hmem

theorem get_cache_row_cents (db : DB) (event : Event) (user : User)
    (hall : ∀ c ∈ db.caches, IsCents c.balance_ucoin) :
    IsCents (get_balance_cache_for_update db event user).2.balance_ucoin := by
  unfold get_balance_cache_for_update
  cases hc : findCache db event.id user.id with
  | some c =>
    simp only
    exact hall c (List.mem_of_find?_eq_some hc)
  | none => exact IsCents.zero

theorem get_balance_val (db : DB) (event : Event) (user : User) :
    (get_balance db event user).2 = cacheBalance db event.id user.id := by
  unfold get_balance
  exact get_cache_row_balance db event user

end WalletService

namespace WalletService

theorem apply_delta_transactions (db : DB) (event : Event) (user : User) (delta : ℚ) :
    (apply_balance_delta db event user delta).1.transactions = db.transactions := by
  unfold apply_balance_delta
  rw [saveCache_transactions, get_cache_transactions]

theorem apply_delta_entries (db : DB) (event : Event) (user : User) (delta : ℚ) :
    (apply_balance_delta db event user delta).1.entries = db.entries := by
  unfold apply_balance_delta
  rw [saveCache_entries, get_cache_entries]

theorem apply_delta_nextTopupId (db : DB) (event : Event) (user : User) (delta : ℚ) :
    (apply_balance_delta db event user delta).1.nextTopupId = db.nextTopupId := by
  unfold apply_balance_delta
  rw [saveCache_nextTopupId, get_cache_nextTopupId]

theorem apply_delta_cacheBalance_self (db : DB) (event : Event) (user : User) (delta : ℚ) :
    cacheBalance (apply_balance_delta db event user delta).1 event.id user.id =
      money (cacheBalance db event.id user.id + money delta) := by
  unfold apply_balance_delta
  have hrow := get_cache_found db event user
  have hev := get_cache_row_event db event user
  have hus := get_cache_row_user db event user
  have hbal := get_cache_row_balance db event user
  set p := get_balance_cache_for_update db event user with hp
  have hself := cacheBalance_saveCache_self p.1
    { p.2 with balance_ucoin := money (p.2.balance_ucoin + money delta) } p.2
    (by simpa [hev, hus] using hrow)
  simpa [hev, hus, hbal] using hself

theorem apply_delta_cacheBalance_other (db : DB) (event : Event) (user : User)
    (delta : ℚ) (e u : Nat) (hne : ¬(e = event.id ∧ u = user.id)) :
    cacheBalance (apply_balance_delta db event user delta).1 e u =
      cacheBalance db e u := by
  unfold apply_balance_delta
  have hev := get_cache_row_event db event user
  have hus := get_cache_row_user db event user
  set p := get_balance_cache_for_update db event user with hp
  rw [cacheBalance_saveCache_other _ _ _ _ (by simpa [hev, hus] using hne)]
  exact get_cache_cacheBalance db event user e u

theorem apply_delta_centsCaches (db : DB) (event : Event) (user : User) (delta : ℚ)
    (hall : ∀ c ∈ db.caches, IsCents c.balance_ucoin) :
    ∀ c ∈ (apply_balance_delta db event user delta).1.caches,
      IsCents c.balance_ucoin := by
  unfold apply_balance_delta
  exact centsCaches_saveCache _ _ (get_cache_centsCaches db event user hall)
    (isCents_money _)

theorem set_balance_val (db : DB) (event : Event) (user : User) (b : ℚ) :
    (set_balance db event user b).2.balance_ucoin = money b := rfl

/-- The transaction row `post_transaction` creates on a fresh key. -/
def freshTx (db : DB) (event : Event) (tx_type : LedgerTxType)
    (idempotency_key : String) (created_by_user : Option Nat)
    (reference_model reference_id : String) : LedgerTransaction :=
  ⟨db.nextTxId, event.id, tx_type, .posted, idempotency_key,
    reference_model, reference_id, created_by_user⟩

theorem post_transaction_replay (db : DB) (event : Event) (ty : LedgerTxType)
    (k : String) (cb : Option Nat) (rm ri : String)
    (es : List (LedgerAccount × ℚ × String)) (tx0 : LedgerTransaction)
    (h : db.transactions.find? (fun t => t.idempotency_key == k) = some tx0) :
    post_transaction db event ty k cb rm ri es = .ok (db, tx0) := by
  unfold post_transaction
  rw [h]

theorem post_transaction_fresh (db : DB) (event : Event) (ty : LedgerTxType)
    (k : String) (cb : Option Nat) (rm ri : String)
    (es : List (LedgerAccount × ℚ × String))
    (hfind : db.transactions.find? (fun t => t.idempotency_key == k) = none)
    (hnz : (es.any fun e => money e.2.1 == 0) = false)
    (hsum : (es.map fun e => money e.2.1).sum = 0) :
    post_transaction db event ty k cb rm ri es =
      .ok ({ db with
        transactions := freshTx db event ty k cb rm ri :: db.transactions,
        nextTxId := db.nextTxId + 1,
        entries := (es.map fun e =>
          ⟨freshTx db event ty k cb rm ri, e.1.event, e.1.code, money e.2.1, e.2.2⟩) ++
            db.entries }, freshTx db event ty k cb rm ri) := by
  unfold post_transaction
  rw [hfind]
  simp only [hnz, Bool.false_eq_true, hsum, ne_eq, not_true_eq_false, if_false, freshTx]

theorem post_transaction_unbalanced (db : DB) (event : Event) (ty : LedgerTxType)
    (k : String) (cb : Option Nat) (rm ri : String)
    (es : List (LedgerAccount × ℚ × String))
    (hfind : db.transactions.find? (fun t => t.idempotency_key == k) = none)
    (hnz : (es.any fun e => money e.2.1 == 0) = false)
    (hsum : (es.map fun e => money e.2.1).sum ≠ 0) :
    post_transaction db event ty k cb rm ri es =
      .error (.valueError "La transaccion contable no esta balanceada.") := by
  unfold post_transaction
  rw [hfind]
  simp only [hnz, Bool.false_eq_true, if_false, hsum, ne_eq, not_false_eq_true, if_true]

end WalletService

/-- A two-entry list whose amounts both quantize to a nonzero value passes the
`check_ledger_entry_nonzero_amount` screen of `post_transaction`. -/
theorem anyMoneyZero_pair_false (w p : LedgerAccount) (x y : ℚ) (d1 d2 : String)
    (hx : money x ≠ 0) (hy : money y ≠ 0) :
    (([(w, x, d1), (p, y, d2)] : List (LedgerAccount × ℚ × String)).any
      fun e => money e.2.1 == 0) = false := by
  simp only [List.any_cons, List.any_nil, Bool.or_false, Bool.or_eq_false_iff,
    beq_eq_false_iff_ne, ne_eq]
  exact ⟨hx, hy⟩

/-- The wallet sum as a function of an entry list. -/
def entriesWalletSum (ens : List LedgerEntry) (eventId userId : Nat) : ℚ :=
  ((ens.filter fun en =>
      en.transaction.event == eventId && en.account_event == eventId &&
        en.account_code == walletAccountCode userId).map
    fun en => en.amount_mxn_signed).sum

theorem walletLedgerSum_eq (db : DB) (e u : Nat) :
    walletLedgerSum db e u = entriesWalletSum db.entries e u := rfl

theorem entriesWalletSum_append (xs ys : List LedgerEntry) (e u : Nat) :
    entriesWalletSum (xs ++ ys) e u =
      entriesWalletSum xs e u + entriesWalletSum ys e u := by
  simp [entriesWalletSum, List.filter_append]

theorem isCents_entriesWalletSum (ens : List LedgerEntry) (e u : Nat)
    (h : ∀ en ∈ ens, IsCents en.amount_mxn_signed) :
    IsCents (entriesWalletSum ens e u) := by
  induction ens with
  | nil => exact IsCents.zero
  | cons x xs ih =>
    have hx := h x (List.mem_cons_self x xs)
    have hxs := ih fun en hen => h en (List.mem_cons_of_mem _ hen)
    unfold entriesWalletSum at hxs ⊢
    by_cases hp : (x.transaction.event == e && x.account_event == e &&
        x.account_code == walletAccountCode u) = true
    · rw [List.filter_cons_of_pos (p := fun (en : LedgerEntry) =>
        en.transaction.event == e && en.account_event == e &&
          en.account_code == walletAccountCode u) hp]
      simpa using IsCents.add hx hxs
    · rw [List.filter_cons_of_neg (p := fun (en : LedgerEntry) =>
        en.transaction.event == e && en.account_event == e &&
          en.account_code == walletAccountCode u) hp]
      exact hxs

theorem cacheBalance_congr {db1 db2 : DB} (h : db1.caches = db2.caches) (e u : Nat) :
    cacheBalance db1 e u = cacheBalance db2 e u := by
  unfold cacheBalance findCache
  rw [h]

theorem KeyOwned.mono {b b' : Nat} {k : String} (hb : b ≤ b') (h : KeyOwned b k) :
    KeyOwned b' k := by
  rcases h with ⟨e, t, hk, ht⟩ | ⟨e, t, hk, ht⟩ | h | h
  · exact .inl ⟨e, t, hk, lt_of_lt_of_le ht hb⟩
  · exact .inr (.inl ⟨e, t, hk, lt_of_lt_of_le ht hb⟩)
  · exact .inr (.inr (.inl h))
  · exact .inr (.inr (.inr h))

/-- A fresh online-topup key collides with no owned key. -/
theorem topupOnlineKey_fresh {db : DB} (event : Event)
    (hkeys : ∀ tx ∈ db.transactions, KeyOwned db.nextTopupId tx.idempotency_key) :
    db.transactions.find?
      (fun t => t.idempotency_key == topupOnlineKey event.id db.nextTopupId) = none := by
  rw [List.find?_eq_none]
  intro tx htx
  simp only [beq_iff_eq]
  intro hk
  rcases hkeys tx htx with ⟨e, t, hk', ht⟩ | ⟨e, t, hk', ht⟩ | ⟨e, m, r, hk'⟩ | ⟨e, u, d, hk'⟩
  · rw [hk'] at hk
    exact absurd (topupOnlineKey_inj hk.symm).2 (by omega)
  · rw [hk'] at hk
    exact topupOnlineKey_ne_topupCashKey _ _ _ _ hk.symm
  · rw [hk'] at hk
    exact topupOnlineKey_ne_purchaseKey _ _ _ _ _ hk.symm
  · rw [hk'] at hk
    exact topupOnlineKey_ne_expiryKey _ _ _ _ _ hk.symm

/-- A fresh cash-topup key collides with no owned key. -/
theorem topupCashKey_fresh {db : DB} (event : Event)
    (hkeys : ∀ tx ∈ db.transactions, KeyOwned db.nextTopupId tx.idempotency_key) :
    db.transactions.find?
      (fun t => t.idempotency_key == topupCashKey event.id db.nextTopupId) = none := by
  rw [List.find?_eq_none]
  intro tx htx
  simp only [beq_iff_eq]
  intro hk
  rcases hkeys tx htx with ⟨e, t, hk', ht⟩ | ⟨e, t, hk', ht⟩ | ⟨e, m, r, hk'⟩ | ⟨e, u, d, hk'⟩
  · rw [hk'] at hk
    exact topupOnlineKey_ne_topupCashKey _ _ _ _ hk
  · rw [hk'] at hk
    exact absurd (topupCashKey_inj hk.symm).2 (by omega)
  · rw [hk'] at hk
    exact topupCashKey_ne_purchaseKey _ _ _ _ _ hk.symm
  · rw [hk'] at hk
    exact topupCashKey_ne_expiryKey _ _ _ _ _ hk.symm

/-- Wallet-sum contribution of the two balanced entries every service flow
posts: one against the user's wallet account, one against a platform
account. -/
theorem entriesWalletSum_op_pair (tx : LedgerTransaction) (evId uId evId2 : Nat)
    (pcode : String) (a1 a2 : ℚ) (d1 d2 : String)
    (htx : tx.event = evId)
    (hp : ∀ u', pcode ≠ walletAccountCode u') (e u : Nat) :
    entriesWalletSum
        [⟨tx, evId, walletAccountCode uId, a1, d1⟩, ⟨tx, evId2, pcode, a2, d2⟩] e u =
      if e = evId ∧ u = uId then a1 else 0 := by
  have hp2 : (pcode == walletAccountCode u) = false :=
    beq_eq_false_iff_ne.mpr (hp u)
  by_cases he : e = evId
  · by_cases hu : u = uId
    · subst he hu
      simp [entriesWalletSum, List.filter, htx, hp2]
    · have hw : (walletAccountCode uId == walletAccountCode u) = false := by
        rw [beq_eq_false_iff_ne]
        intro hcode
        exact hu (walletAccountCode_inj hcode).symm
      simp [entriesWalletSum, List.filter, htx, hp2, hw, he, hu]
  · have htxe : (tx.event == e) = false := by
      rw [beq_eq_false_iff_ne, htx]
      exact fun hh => he hh.symm
    simp [entriesWalletSum, List.filter, htxe, he]

namespace WalletService

theorem goodState_get_cache {db : DB} (ev : Event) (us : User) (hg : GoodState db) :
    GoodState (get_balance_cache_for_update db ev us).1 := by
  refine ⟨?_, ?_, ?_, ?_⟩
  · rw [get_cache_transactions, get_cache_nextTopupId]
    exact hg.keys
  · rw [get_cache_entries]
    exact hg.centsEntries
  · exact get_cache_centsCaches db ev us hg.centsCaches
  · intro e u
    rw [get_cache_cacheBalance, walletLedgerSum_eq, get_cache_entries,
      ← walletLedgerSum_eq]
    exact hg.balanced e u

theorem chain_transactions (db : DB) (ev : Event) (us : User) :
    ((ensure_user_wallet_account (ensure_platform_accounts db ev).1 ev us).1).transactions =
      db.transactions := by
  rw [ensure_user_wallet_account_transactions, ensure_platform_accounts_transactions]

theorem chain_entries (db : DB) (ev : Event) (us : User) :
    ((ensure_user_wallet_account (ensure_platform_accounts db ev).1 ev us).1).entries =
      db.entries := by
  rw [ensure_user_wallet_account_entries, ensure_platform_accounts_entries]

theorem chain_caches (db : DB) (ev : Event) (us : User) :
    ((ensure_user_wallet_account (ensure_platform_accounts db ev).1 ev us).1).caches =
      db.caches := by
  rw [ensure_user_wallet_account_caches, ensure_platform_accounts_caches]

theorem chain_nextTopupId (db : DB) (ev : Event) (us : User) :
    ((ensure_user_wallet_account (ensure_platform_accounts db ev).1 ev us).1).nextTopupId =
      db.nextTopupId := by
  rw [ensure_user_wallet_account_nextTopupId, ensure_platform_accounts_nextTopupId]

theorem goodState_ensure_chain {db : DB} (ev : Event) (us : User) (hg : GoodState db) :
    GoodState (ensure_user_wallet_account (ensure_platform_accounts db ev).1 ev us).1 := by
  refine ⟨?_, ?_, ?_, ?_⟩
  · rw [chain_transactions, chain_nextTopupId]
    exact hg.keys
  · rw [chain_entries]
    exact hg.centsEntries
  · rw [chain_caches]
    exact hg.centsCaches
  · intro e u
    rw [cacheBalance_congr (chain_caches db ev us), walletLedgerSum_eq, chain_entries,
      ← walletLedgerSum_eq]
    exact hg.balanced e u

end WalletService

namespace WalletService

theorem goodState_topup_tail {db0 dbT : DB} {q : DB × LedgerTransaction}
    (ev : Event) (us : User) (amt : ℚ) (key : String) (ty : LedgerTxType)
    (cb : Option Nat) (rid d1 d2 : String)
    (hg : GoodState db0)
    (hpost : post_transaction
        (ensure_user_wallet_account (ensure_platform_accounts dbT ev).1 ev us).1 ev ty key cb
        "topup_record" rid
        [((ensure_user_wallet_account (ensure_platform_accounts dbT ev).1 ev us).2, amt, d1),
          ((ensure_platform_accounts dbT ev).2.1, -amt, d2)] = .ok q)
    (htrans : dbT.transactions = db0.transactions)
    (hentries : dbT.entries = db0.entries)
    (hcaches : dbT.caches = db0.caches)
    (hbound : dbT.nextTopupId = db0.nextTopupId + 1)
    (hamt : money amt = amt)
    (hne : amt ≠ 0)
    (hkey : key = topupOnlineKey ev.id db0.nextTopupId ∨
      key = topupCashKey ev.id db0.nextTopupId) :
    GoodState (apply_balance_delta q.1 ev us amt).1 := by
  obtain ⟨db4, tx4⟩ := q
  have hcents : IsCents amt := hamt ▸ isCents_money amt
  have hsum : (([((ensure_user_wallet_account (ensure_platform_accounts dbT ev).1 ev us).2,
      amt, d1), ((ensure_platform_accounts dbT ev).2.1, -amt, d2)]).map
        fun x => money x.2.1).sum = 0 := by
    simp [hamt, money_eq_of_isCents hcents.neg]
  have hfresh : ((ensure_user_wallet_account
      (ensure_platform_accounts dbT ev).1 ev us).1).transactions.find?
        (fun t => t.idempotency_key == key) = none := by
    rw [chain_transactions, htrans]
    rcases hkey with rfl | rfl
    · exact topupOnlineKey_fresh ev hg.keys
    · exact topupCashKey_fresh ev hg.keys
  have hnz := anyMoneyZero_pair_false
    ((ensure_user_wallet_account (ensure_platform_accounts dbT ev).1 ev us).2)
    ((ensure_platform_accounts dbT ev).2.1) amt (-amt) d1 d2
    (by rw [hamt]; exact hne)
    (by rw [money_eq_of_isCents hcents.neg]; exact neg_ne_zero.mpr hne)
  rw [post_transaction_fresh _ _ _ _ _ _ _ _ hfresh hnz hsum] at hpost
  rw [Except.ok.injEq, Prod.mk.injEq] at hpost
  obtain ⟨hdb4, htx4⟩ := hpost
  set db3 := (ensure_user_wallet_account (ensure_platform_accounts dbT ev).1 ev us).1
    with hdb3
  refine ⟨?_, ?_, ?_, ?_⟩
  · rw [apply_delta_transactions, apply_delta_nextTopupId, ← hdb4]
    intro tx htx
    simp only [List.mem_cons] at htx
    have hnext : db3.nextTopupId = db0.nextTopupId + 1 := by
      rw [hdb3, chain_nextTopupId, hbound]
    rcases htx with rfl | htx
    · rw [hnext]
      simp only [freshTx]
      rcases hkey with rfl | rfl
      · exact .inl ⟨ev.id, db0.nextTopupId, rfl, Nat.lt_succ_self _⟩
      · exact .inr (.inl ⟨ev.id, db0.nextTopupId, rfl, Nat.lt_succ_self _⟩)
    · rw [hnext]
      have htx0 : tx ∈ db0.transactions := by
        rw [← htrans, ← chain_transactions dbT ev us]
        exact htx
      exact (hg.keys tx htx0).mono (Nat.le_succ _)
  · rw [apply_delta_entries, ← hdb4]
    intro en hen
    simp only [List.map_cons, List.map_nil, List.cons_append, List.nil_append,
      List.mem_cons] at hen
    rcases hen with rfl | rfl | hen
    · exact isCents_money _
    · exact isCents_money _
    · have : en ∈ db0.entries := by
        rw [← hentries, ← chain_entries dbT ev us]
        exact hen
      exact hg.centsEntries en this
  · apply apply_delta_centsCaches
    rw [← hdb4]
    intro c hc
    have : c ∈ db0.caches := by
      rw [← hcaches, ← chain_caches dbT ev us]
      exact hc
    exact hg.centsCaches c this
  · intro e u
    have hc4 : db4.caches = db0.caches := by
      rw [← hdb4, hdb3, chain_caches, hcaches]
    have he4 : db4.entries =
        ((([((ensure_user_wallet_account (ensure_platform_accounts dbT ev).1 ev us).2,
          amt, d1), ((ensure_platform_accounts dbT ev).2.1, -amt, d2)]).map fun x =>
            (⟨freshTx db3 ev ty key cb "topup_record" rid, x.1.event, x.1.code,
              money x.2.1, x.2.2⟩ : LedgerEntry)) ++ db0.entries) := by
      rw [← hdb4]
      simp only
      rw [hdb3, chain_entries, hentries]
    have hsum_pair : ∀ e' u', entriesWalletSum
        ((([((ensure_user_wallet_account (ensure_platform_accounts dbT ev).1 ev us).2,
          amt, d1), ((ensure_platform_accounts dbT ev).2.1, -amt, d2)]).map fun x =>
            (⟨freshTx db3 ev ty key cb "topup_record" rid, x.1.event, x.1.code,
              money x.2.1, x.2.2⟩ : LedgerEntry))) e' u' =
          if e' = ev.id ∧ u' = us.id then money amt else 0 := by
      intro e' u'
      simp only [List.map_cons, List.map_nil]
      rw [ensure_user_wallet_account_event, ensure_user_wallet_account_code,
        ensure_platform_accounts_cash_code]
      exact entriesWalletSum_op_pair _ _ _ _ _ _ _ _ _ rfl
        (fun u'' hne => walletAccountCode_ne_cash u'' hne.symm) e' u'
    by_cases hcase : e = ev.id ∧ u = us.id
    · obtain ⟨rfl, rfl⟩ := hcase
      rw [apply_delta_cacheBalance_self, cacheBalance_congr hc4,
        walletLedgerSum_eq, apply_delta_entries, he4, entriesWalletSum_append,
        hsum_pair, hg.balanced, hamt]
      have hsc : IsCents (walletLedgerSum db0 ev.id us.id) := by
        rw [walletLedgerSum_eq]
        exact isCents_entriesWalletSum _ _ _ hg.centsEntries
      rw [money_eq_of_isCents (hsc.add hcents), if_pos ⟨rfl, rfl⟩,
        ← walletLedgerSum_eq]
      ring
    · rw [apply_delta_cacheBalance_other _ _ _ _ _ _ hcase, cacheBalance_congr hc4,
        walletLedgerSum_eq, apply_delta_entries, he4, entriesWalletSum_append,
        hsum_pair, if_neg hcase, hg.balanced, ← walletLedgerSum_eq]
      ring

end WalletService

namespace WalletService

theorem goodState_record_online_topup {db db' : DB} {rec : TopupRecord}
    (ev : Event) (us : User) (a : ℚ) (p pr sr : String)
    (hg : GoodState db)
    (h : record_online_topup db ev us a p pr sr = .ok (db', rec)) :
    GoodState db' := by
  unfold record_online_topup at h
  cases hw : assert_event_writable ev with
  | error e0 =>
    rw [hw] at h
    exact absurd h (by simp)
  | ok u0 =>
    rw [hw] at h
    by_cases ha : money a ≤ 0
    · rw [if_pos ha] at h
      exact absurd h (by simp)
    · rw [if_neg ha] at h
      by_cases hsr : sr = ""
      · subst hsr
        simp only [ne_eq, not_true_eq_false, if_false, Bool.false_eq_true] at h
        rw [if_neg (by decide : ¬ (true = false))] at h
        split at h
        · exact absurd h (by simp)
        · next q heq =>
          rw [Except.ok.injEq, Prod.mk.injEq] at h
          obtain ⟨h1, h2⟩ := h
          rw [← h1]
          exact goodState_topup_tail ev us (money a) _ _ _ _ _ _ hg heq rfl rfl rfl rfl
            (money_money a) (ne_of_gt (not_le.mp ha)) (Or.inl rfl)
      · rw [if_pos (show sr ≠ "" from hsr)] at h
        cases hfind : db.topups.find? fun t =>
            t.event == ev.id && t.source_reference == sr with
        | some t =>
          rw [hfind] at h
          rw [if_pos (rfl : false = false)] at h
          rw [Except.ok.injEq, Prod.mk.injEq] at h
          obtain ⟨h1, h2⟩ := h
          rw [← h1]
          exact hg
        | none =>
          rw [hfind] at h
          simp only [] at h
          rw [if_neg (by decide : ¬ (true = false))] at h
          split at h
          · exact absurd h (by simp)
          · next q heq =>
            rw [Except.ok.injEq, Prod.mk.injEq] at h
            obtain ⟨h1, h2⟩ := h
            rw [← h1]
            exact goodState_topup_tail ev us (money a) _ _ _ _ _ _ hg heq rfl rfl rfl rfl
              (money_money a) (ne_of_gt (not_le.mp ha)) (Or.inl rfl)

end WalletService

namespace WalletService

theorem goodState_grant_cash_topup {db db' : DB} {rec : TopupRecord × StaffCreditGrant}
    (ev : Event) (cu su : User) (a : ℚ) (reason : String)
    (hg : GoodState db)
    (h : grant_cash_topup db ev cu su a reason = .ok (db', rec)) :
    GoodState db' := by
  unfold grant_cash_topup at h
  cases hw : assert_event_writable ev with
  | error e0 =>
    rw [hw] at h
    exact absurd h (by simp)
  | ok u0 =>
    rw [hw] at h
    by_cases ha : money a ≤ 0
    · rw [if_pos ha] at h
      exact absurd h (by simp)
    · rw [if_neg ha] at h
      simp only [] at h
      split at h
      · exact absurd h (by simp)
      · next q heq =>
        rw [Except.ok.injEq, Prod.mk.injEq] at h
        obtain ⟨h1, h2⟩ := h
        rw [← h1]
        exact goodState_topup_tail ev cu (money a) _ _ _ _ _ _ hg heq rfl rfl rfl rfl
          (money_money a) (ne_of_gt (not_le.mp ha)) (Or.inr rfl)

end WalletService

namespace WalletService

theorem goodState_mirror_fresh {db1 : DB} {q : DB × LedgerTransaction}
    (ev : Event) (us : User) (amt : ℚ) (rm rid : String) (cb : Option Nat)
    (wc : WalletBalanceCache)
    (hg1 : GoodState db1)
    (hpost : post_transaction
        (ensure_user_wallet_account (ensure_platform_accounts db1 ev).1 ev us).1 ev .purchase
        (purchaseKey ev.id rm rid) cb rm rid
        [((ensure_user_wallet_account (ensure_platform_accounts db1 ev).1 ev us).2, -amt,
            "Descuento de wallet por compra"),
          ((ensure_platform_accounts db1 ev).2.2.1, amt, "Reconocimiento de ingreso")] = .ok q)
    (hfresh : db1.transactions.find?
        (fun t => t.idempotency_key == purchaseKey ev.id rm rid) = none)
    (hwev : wc.event = ev.id) (hwus : wc.user = us.id)
    (hwbal : wc.balance_ucoin = cacheBalance db1 ev.id us.id)
    (hrow : findCache db1 ev.id us.id = some wc)
    (hamt : money amt = amt)
    (hne : amt ≠ 0) :
    GoodState (saveCache q.1 { wc with balance_ucoin := money (wc.balance_ucoin - amt) }) := by
  obtain ⟨db4, tx4⟩ := q
  obtain ⟨wce, wcu, wcb⟩ := wc
  simp only at hwev hwus hwbal hrow ⊢
  subst hwev
  subst hwus
  have hcents : IsCents amt := hamt ▸ isCents_money amt
  have hsum : (([((ensure_user_wallet_account (ensure_platform_accounts db1 ev).1 ev us).2,
      -amt, "Descuento de wallet por compra"),
      ((ensure_platform_accounts db1 ev).2.2.1, amt, "Reconocimiento de ingreso")]).map
        fun x => money x.2.1).sum = 0 := by
    simp [hamt, money_eq_of_isCents hcents.neg]
  have hfresh3 : ((ensure_user_wallet_account
      (ensure_platform_accounts db1 ev).1 ev us).1).transactions.find?
        (fun t => t.idempotency_key == purchaseKey ev.id rm rid) = none := by
    rw [chain_transactions]
    exact hfresh
  have hnz := anyMoneyZero_pair_false
    ((ensure_user_wallet_account (ensure_platform_accounts db1 ev).1 ev us).2)
    ((ensure_platform_accounts db1 ev).2.2.1) (-amt) amt
    "Descuento de wallet por compra" "Reconocimiento de ingreso"
    (by rw [money_eq_of_isCents hcents.neg]; exact neg_ne_zero.mpr hne)
    (by rw [hamt]; exact hne)
  rw [post_transaction_fresh _ _ _ _ _ _ _ _ hfresh3 hnz hsum] at hpost
  rw [Except.ok.injEq, Prod.mk.injEq] at hpost
  obtain ⟨hdb4, htx4⟩ := hpost
  set db3 := (ensure_user_wallet_account (ensure_platform_accounts db1 ev).1 ev us).1
    with hdb3
  have hwsum : IsCents (walletLedgerSum db1 ev.id us.id) := by
    rw [walletLedgerSum_eq]
    exact isCents_entriesWalletSum _ _ _ hg1.centsEntries
  refine ⟨?_, ?_, ?_, ?_⟩
  · rw [saveCache_transactions, saveCache_nextTopupId, ← hdb4]
    intro tx htx
    simp only [List.mem_cons] at htx
    have hnext : db3.nextTopupId = db1.nextTopupId := by
      rw [hdb3, chain_nextTopupId]
    rcases htx with rfl | htx
    · rw [hnext]
      exact .inr (.inr (.inl ⟨ev.id, rm, rid, rfl⟩))
    · rw [hnext]
      have htx0 : tx ∈ db1.transactions := by
        rw [← chain_transactions db1 ev us]
        exact htx
      exact hg1.keys tx htx0
  · rw [saveCache_entries, ← hdb4]
    intro en hen
    simp only [List.map_cons, List.map_nil, List.cons_append, List.nil_append,
      List.mem_cons] at hen
    rcases hen with rfl | rfl | hen
    · exact isCents_money _
    · exact isCents_money _
    · have : en ∈ db1.entries := by
        rw [← chain_entries db1 ev us]
        exact hen
      exact hg1.centsEntries en this
  · apply centsCaches_saveCache
    · rw [← hdb4]
      intro c hc
      have : c ∈ db1.caches := by
        rw [← chain_caches db1 ev us]
        exact hc
      exact hg1.centsCaches c this
    · exact isCents_money _
  · intro e u
    have hc4 : db4.caches = db1.caches := by
      rw [← hdb4, hdb3, chain_caches]
    have he4 : db4.entries =
        ((([((ensure_user_wallet_account (ensure_platform_accounts db1 ev).1 ev us).2,
          -amt, "Descuento de wallet por compra"),
          ((ensure_platform_accounts db1 ev).2.2.1, amt,
            "Reconocimiento de ingreso")]).map fun x =>
            (⟨freshTx db3 ev .purchase (purchaseKey ev.id rm rid) cb rm rid, x.1.event,
              x.1.code, money x.2.1, x.2.2⟩ : LedgerEntry)) ++ db1.entries) := by
      rw [← hdb4]
      simp only
      rw [hdb3, chain_entries]
    have hsum_pair : ∀ e' u', entriesWalletSum
        ((([((ensure_user_wallet_account (ensure_platform_accounts db1 ev).1 ev us).2,
          -amt, "Descuento de wallet por compra"),
          ((ensure_platform_accounts db1 ev).2.2.1, amt,
            "Reconocimiento de ingreso")]).map fun x =>
            (⟨freshTx db3 ev .purchase (purchaseKey ev.id rm rid) cb rm rid, x.1.event,
              x.1.code, money x.2.1, x.2.2⟩ : LedgerEntry))) e' u' =
          if e' = ev.id ∧ u' = us.id then money (-amt) else 0 := by
      intro e' u'
      simp only [List.map_cons, List.map_nil]
      rw [ensure_user_wallet_account_event, ensure_user_wallet_account_code,
        ensure_platform_accounts_revenue_code]
      exact entriesWalletSum_op_pair _ _ _ _ _ _ _ _ _ rfl
        (fun u'' hne => walletAccountCode_ne_revenue u'' hne.symm) e' u'
    have hfc : findCache db4 ev.id us.id = findCache db1 ev.id us.id := by
      unfold findCache
      rw [hc4]
    by_cases hcase : e = ev.id ∧ u = us.id
    · obtain ⟨rfl, rfl⟩ := hcase
      have hself := cacheBalance_saveCache_self db4
        (⟨ev.id, us.id, money (wcb - amt)⟩ : WalletBalanceCache)
        (⟨ev.id, us.id, wcb⟩ : WalletBalanceCache) (by rw [hfc]; exact hrow)
      simp only at hself
      rw [hself, walletLedgerSum_eq, saveCache_entries, he4, entriesWalletSum_append,
        hsum_pair, if_pos ⟨rfl, rfl⟩, hwbal, hg1.balanced,
        money_eq_of_isCents (hwsum.sub hcents), money_eq_of_isCents hcents.neg,
        ← walletLedgerSum_eq]
      ring
    · have hother := cacheBalance_saveCache_other db4
        (⟨ev.id, us.id, money (wcb - amt)⟩ : WalletBalanceCache) e u hcase
      rw [hother, cacheBalance_congr hc4, walletLedgerSum_eq, saveCache_entries, he4,
        entriesWalletSum_append, hsum_pair, if_neg hcase, hg1.balanced,
        ← walletLedgerSum_eq]
      ring

end WalletService

namespace WalletService

theorem goodState_record_purchase_mirror {db db' : DB} {res : WalletBalanceCache}
    (ev : Event) (us : User) (a : ℚ) (rm rid : String) (cb : Option Nat)
    (bc : Option WalletBalanceCache)
    (hg : GoodState db)
    (hbc : ∀ c, bc = some c → c.event = ev.id ∧ c.user = us.id ∧
      c.balance_ucoin = cacheBalance db ev.id us.id ∧
        findCache db ev.id us.id = some c)
    (h : record_purchase_mirror db ev us a rm rid cb bc = .ok (db', res)) :
    GoodState db' := by
  unfold record_purchase_mirror at h
  cases hw : assert_event_writable ev with
  | error e0 =>
    rw [hw] at h
    exact absurd h (by simp)
  | ok u0 =>
    rw [hw] at h
    by_cases ha : money a ≤ 0
    · rw [if_pos ha] at h
      exact absurd h (by simp)
    · rw [if_neg ha] at h
      cases bc with
      | some c =>
        obtain ⟨hcev, hcus, hcbal, hcrow⟩ := hbc c rfl
        simp only [] at h
        split at h
        · exact absurd h (by simp)
        · next q heq =>
          by_cases hex : (db.transactions.any fun t =>
              t.idempotency_key == purchaseKey ev.id rm rid) = true
          · rw [if_pos hex] at h
            rw [Except.ok.injEq, Prod.mk.injEq] at h
            obtain ⟨h1, h2⟩ := h
            obtain ⟨tx0, hfind⟩ := Option.isSome_iff_exists.mp
              ((List.find?_isSome).mpr (by
                obtain ⟨t, ht, hpt⟩ := List.any_eq_true.mp hex
                exact ⟨t, ht, hpt⟩))
            rw [post_transaction_replay _ _ _ _ _ _ _ _ _
              (by rw [chain_transactions]; exact hfind)] at heq
            rw [Except.ok.injEq] at heq
            rw [← h1, ← heq]
            exact goodState_ensure_chain ev us hg
          · rw [if_neg hex] at h
            rw [Except.ok.injEq, Prod.mk.injEq] at h
            obtain ⟨h1, h2⟩ := h
            rw [← h1]
            exact goodState_mirror_fresh ev us (money a) rm rid (some (cb.getD us.id)) c hg heq
              (by rw [List.find?_eq_none]
                  intro t ht hpt
                  exact hex (List.any_eq_true.mpr ⟨t, ht, hpt⟩))
              hcev hcus hcbal hcrow (money_money a) (ne_of_gt (not_le.mp ha))
      | none =>
        simp only [] at h
        split at h
        · exact absurd h (by simp)
        · next q heq =>
          by_cases hex : ((get_balance_cache_for_update db ev us).1.transactions.any fun t =>
              t.idempotency_key == purchaseKey ev.id rm rid) = true
          · rw [if_pos hex] at h
            rw [Except.ok.injEq, Prod.mk.injEq] at h
            obtain ⟨h1, h2⟩ := h
            obtain ⟨tx0, hfind⟩ := Option.isSome_iff_exists.mp
              ((List.find?_isSome).mpr (by
                obtain ⟨t, ht, hpt⟩ := List.any_eq_true.mp hex
                exact ⟨t, ht, hpt⟩))
            rw [post_transaction_replay _ _ _ _ _ _ _ _ _
              (by rw [chain_transactions]; exact hfind)] at heq
            rw [Except.ok.injEq] at heq
            rw [← h1, ← heq]
            exact goodState_ensure_chain ev us (goodState_get_cache ev us hg)
          · rw [if_neg hex] at h
            rw [Except.ok.injEq, Prod.mk.injEq] at h
            obtain ⟨h1, h2⟩ := h
            rw [← h1]
            exact goodState_mirror_fresh ev us (money a) rm rid (some (cb.getD us.id))
              (get_balance_cache_for_update db ev us).2
              (goodState_get_cache ev us hg) heq
              (by rw [List.find?_eq_none]
                  intro t ht hpt
                  exact hex (List.any_eq_true.mpr ⟨t, ht, hpt⟩))
              (get_cache_row_event db ev us) (get_cache_row_user db ev us)
              (by rw [get_cache_row_balance, get_cache_cacheBalance])
              (get_cache_found db ev us) (money_money a) (ne_of_gt (not_le.mp ha))

end WalletService

namespace WalletService

theorem goodState_expiry_fresh {db1 : DB} {q : DB × LedgerTransaction}
    (ev : Event) (us : User) (cb : Option Nat) (d : String) (wc : WalletBalanceCache)
    (hg1 : GoodState db1)
    (hpost : post_transaction
        (ensure_user_wallet_account (ensure_platform_accounts db1 ev).1 ev us).1 ev .expiry
        (expiryKey ev.id us.id d) cb "event_campaign" (Nat.repr ev.id)
        [((ensure_user_wallet_account (ensure_platform_accounts db1 ev).1 ev us).2,
            -(money wc.balance_ucoin), "Expiracion de saldo al cierre de evento"),
          ((ensure_platform_accounts db1 ev).2.2.2, money wc.balance_ucoin,
            "Ingreso por expiracion")] = .ok q)
    (hfresh : db1.transactions.find?
        (fun t => t.idempotency_key == expiryKey ev.id us.id d) = none)
    (hwev : wc.event = ev.id) (hwus : wc.user = us.id)
    (hwbal : wc.balance_ucoin = cacheBalance db1 ev.id us.id)
    (hrow : findCache db1 ev.id us.id = some wc)
    (hne : money wc.balance_ucoin ≠ 0) :
    GoodState (saveCache q.1 { wc with balance_ucoin := 0 }) := by
  obtain ⟨db4, tx4⟩ := q
  obtain ⟨wce, wcu, wcb⟩ := wc
  simp only at hwev hwus hwbal hrow ⊢
  subst hwev
  subst hwus
  have hsum : (([((ensure_user_wallet_account (ensure_platform_accounts db1 ev).1 ev us).2,
      -(money wcb), "Expiracion de saldo al cierre de evento"),
      ((ensure_platform_accounts db1 ev).2.2.2, money wcb,
        "Ingreso por expiracion")]).map fun x => money x.2.1).sum = 0 := by
    simp [money_money, money_eq_of_isCents (isCents_money wcb).neg]
  have hfresh3 : ((ensure_user_wallet_account
      (ensure_platform_accounts db1 ev).1 ev us).1).transactions.find?
        (fun t => t.idempotency_key == expiryKey ev.id us.id d) = none := by
    rw [chain_transactions]
    exact hfresh
  have hnz := anyMoneyZero_pair_false
    ((ensure_user_wallet_account (ensure_platform_accounts db1 ev).1 ev us).2)
    ((ensure_platform_accounts db1 ev).2.2.2) (-(money wcb)) (money wcb)
    "Expiracion de saldo al cierre de evento" "Ingreso por expiracion"
    (by rw [money_eq_of_isCents (isCents_money wcb).neg]; exact neg_ne_zero.mpr hne)
    (by rw [money_money]; exact hne)
  rw [post_transaction_fresh _ _ _ _ _ _ _ _ hfresh3 hnz hsum] at hpost
  rw [Except.ok.injEq, Prod.mk.injEq] at hpost
  obtain ⟨hdb4, htx4⟩ := hpost
  set db3 := (ensure_user_wallet_account (ensure_platform_accounts db1 ev).1 ev us).1
    with hdb3
  have hwsum : IsCents (walletLedgerSum db1 ev.id us.id) := by
    rw [walletLedgerSum_eq]
    exact isCents_entriesWalletSum _ _ _ hg1.centsEntries
  refine ⟨?_, ?_, ?_, ?_⟩
  · rw [saveCache_transactions, saveCache_nextTopupId, ← hdb4]
    intro tx htx
    simp only [List.mem_cons] at htx
    have hnext : db3.nextTopupId = db1.nextTopupId := by
      rw [hdb3, chain_nextTopupId]
    rcases htx with rfl | htx
    · rw [hnext]
      exact .inr (.inr (.inr ⟨ev.id, us.id, d, rfl⟩))
    · rw [hnext]
      have htx0 : tx ∈ db1.transactions := by
        rw [← chain_transactions db1 ev us]
        exact htx
      exact hg1.keys tx htx0
  · rw [saveCache_entries, ← hdb4]
    intro en hen
    simp only [List.map_cons, List.map_nil, List.cons_append, List.nil_append,
      List.mem_cons] at hen
    rcases hen with rfl | rfl | hen
    · exact isCents_money _
    · exact isCents_money _
    · have : en ∈ db1.entries := by
        rw [← chain_entries db1 ev us]
        exact hen
      exact hg1.centsEntries en this
  · apply centsCaches_saveCache
    · rw [← hdb4]
      intro c hc
      have : c ∈ db1.caches := by
        rw [← chain_caches db1 ev us]
        exact hc
      exact hg1.centsCaches c this
    · exact IsCents.zero
  · intro e u
    have hc4 : db4.caches = db1.caches := by
      rw [← hdb4, hdb3, chain_caches]
    have he4 : db4.entries =
        ((([((ensure_user_wallet_account (ensure_platform_accounts db1 ev).1 ev us).2,
          -(money wcb), "Expiracion de saldo al cierre de evento"),
          ((ensure_platform_accounts db1 ev).2.2.2, money wcb,
            "Ingreso por expiracion")]).map fun x =>
            (⟨freshTx db3 ev .expiry (expiryKey ev.id us.id d) cb "event_campaign"
              (Nat.repr ev.id), x.1.event, x.1.code, money x.2.1, x.2.2⟩ :
                LedgerEntry)) ++ db1.entries) := by
      rw [← hdb4]
      simp only
      rw [hdb3, chain_entries]
    have hsum_pair : ∀ e' u', entriesWalletSum
        ((([((ensure_user_wallet_account (ensure_platform_accounts db1 ev).1 ev us).2,
          -(money wcb), "Expiracion de saldo al cierre de evento"),
          ((ensure_platform_accounts db1 ev).2.2.2, money wcb,
            "Ingreso por expiracion")]).map fun x =>
            (⟨freshTx db3 ev .expiry (expiryKey ev.id us.id d) cb "event_campaign"
              (Nat.repr ev.id), x.1.event, x.1.code, money x.2.1, x.2.2⟩ :
                LedgerEntry))) e' u' =
          if e' = ev.id ∧ u' = us.id then money (-(money wcb)) else 0 := by
      intro e' u'
      simp only [List.map_cons, List.map_nil]
      rw [ensure_user_wallet_account_event, ensure_user_wallet_account_code,
        ensure_platform_accounts_expiry_code]
      exact entriesWalletSum_op_pair _ _ _ _ _ _ _ _ _ rfl
        (fun u'' hne => walletAccountCode_ne_expiry u'' hne.symm) e' u'
    have hfc : findCache db4 ev.id us.id = findCache db1 ev.id us.id := by
      unfold findCache
      rw [hc4]
    by_cases hcase : e = ev.id ∧ u = us.id
    · obtain ⟨rfl, rfl⟩ := hcase
      have hself := cacheBalance_saveCache_self db4
        (⟨ev.id, us.id, 0⟩ : WalletBalanceCache)
        (⟨ev.id, us.id, wcb⟩ : WalletBalanceCache) (by rw [hfc]; exact hrow)
      simp only at hself
      rw [hself, walletLedgerSum_eq, saveCache_entries, he4, entriesWalletSum_append,
        hsum_pair, if_pos ⟨rfl, rfl⟩, money_eq_of_isCents (isCents_money wcb).neg,
        hwbal, hg1.balanced, money_eq_of_isCents hwsum, ← walletLedgerSum_eq]
      ring
    · have hother := cacheBalance_saveCache_other db4
        (⟨ev.id, us.id, 0⟩ : WalletBalanceCache) e u hcase
      rw [hother, cacheBalance_congr hc4, walletLedgerSum_eq, saveCache_entries, he4,
        entriesWalletSum_append, hsum_pair, if_neg hcase, hg1.balanced,
        ← walletLedgerSum_eq]
      ring

end WalletService

namespace WalletService

theorem goodState_record_purchase {db db' : DB} {res : WalletBalanceCache}
    (ev : Event) (us : User) (a : ℚ) (rm rid : String) (cb : Option Nat)
    (hg : GoodState db)
    (h : record_purchase db ev us a rm rid cb = .ok (db', res)) :
    GoodState db' := by
  unfold record_purchase at h
  cases hw : assert_event_writable ev with
  | error e0 =>
    rw [hw] at h
    exact absurd h (by simp)
  | ok u0 =>
    rw [hw] at h
    by_cases ha : money a ≤ 0
    · rw [if_pos ha] at h
      exact absurd h (by simp)
    · rw [if_neg ha] at h
      by_cases hlt : (get_balance_cache_for_update db ev us).2.balance_ucoin < money a
      · rw [if_pos hlt] at h
        exact absurd h (by simp)
      · rw [if_neg hlt] at h
        exact goodState_record_purchase_mirror ev us (money a) rm rid
          (some (cb.getD us.id)) (some (get_balance_cache_for_update db ev us).2)
          (goodState_get_cache ev us hg)
          (fun c hc => by
            rw [Option.some.injEq] at hc
            subst hc
            exact ⟨get_cache_row_event db ev us, get_cache_row_user db ev us,
              by rw [get_cache_row_balance, get_cache_cacheBalance],
              get_cache_found db ev us⟩) h

theorem goodState_expire {db db' : DB} {res : WalletBalanceCache}
    (ev : Event) (us : User) (cb : Option Nat) (d : String)
    (hg : GoodState db)
    (hkey : 0 < cacheBalance db ev.id us.id →
      db.transactions.find?
        (fun t => t.idempotency_key == expiryKey ev.id us.id d) = none)
    (h : expire_remaining_balance db ev us cb d = .ok (db', res)) :
    GoodState db' := by
  unfold expire_remaining_balance at h
  cases hw : assert_event_writable ev with
  | error e0 =>
    rw [hw] at h
    exact absurd h (by simp)
  | ok u0 =>
    rw [hw] at h
    simp only [] at h
    by_cases hle : money (get_balance_cache_for_update db ev us).2.balance_ucoin ≤ 0
    · rw [if_pos hle] at h
      rw [Except.ok.injEq, Prod.mk.injEq] at h
      obtain ⟨h1, h2⟩ := h
      rw [← h1]
      exact goodState_get_cache ev us hg
    · rw [if_neg hle] at h
      have hbal : (get_balance_cache_for_update db ev us).2.balance_ucoin =
          cacheBalance db ev.id us.id := get_cache_row_balance db ev us
      have hcents : IsCents (cacheBalance db ev.id us.id) := by
        rw [hg.balanced, walletLedgerSum_eq]
        exact isCents_entriesWalletSum _ _ _ hg.centsEntries
      have hmon : money (get_balance_cache_for_update db ev us).2.balance_ucoin =
          cacheBalance db ev.id us.id := by
        rw [hbal, money_eq_of_isCents hcents]
      have hpos : 0 < cacheBalance db ev.id us.id := by
        rw [← hmon]
        exact lt_of_not_ge fun hge => hle (by exact hge)
      have hfresh : db.transactions.find?
          (fun t => t.idempotency_key == expiryKey ev.id us.id d) = none := hkey hpos
      split at h
      · exact absurd h (by simp)
      · next q heq =>
        rw [Except.ok.injEq, Prod.mk.injEq] at h
        obtain ⟨h1, h2⟩ := h
        rw [← h1]
        exact goodState_expiry_fresh ev us cb d
          (get_balance_cache_for_update db ev us).2
          (goodState_get_cache ev us hg) heq
          (by rw [get_cache_transactions]; exact hfresh)
          (get_cache_row_event db ev us) (get_cache_row_user db ev us)
          (by rw [get_cache_row_balance, get_cache_cacheBalance])
          (get_cache_found db ev us)
          (ne_of_gt (not_le.mp hle))

end WalletService

theorem goodState_applyOp {db db' : DB} (op : Op)
    (hg : GoodState db) (hgood : goodOpB db op = true)
    (h : applyOp db op = .ok db') : GoodState db' := by
  cases op with
  | onlineTopup e u a p pr sr =>
    simp only [applyOp] at h
    cases hr : WalletService.record_online_topup db e u a p pr sr with
    | error err =>
      rw [hr] at h
      exact absurd h (by simp [Except.map])
    | ok r =>
      obtain ⟨db1, rec⟩ := r
      rw [hr] at h
      simp only [Except.map, Except.ok.injEq] at h
      rw [← h]
      exact WalletService.goodState_record_online_topup e u a p pr sr hg hr
  | cashTopup e cu su a r0 =>
    simp only [applyOp] at h
    cases hr : WalletService.grant_cash_topup db e cu su a r0 with
    | error err =>
      rw [hr] at h
      exact absurd h (by simp [Except.map])
    | ok r =>
      obtain ⟨db1, rec⟩ := r
      rw [hr] at h
      simp only [Except.map, Except.ok.injEq] at h
      rw [← h]
      exact WalletService.goodState_grant_cash_topup e cu su a r0 hg hr
  | purchase e u a m r0 cb =>
    simp only [applyOp] at h
    cases hr : WalletService.record_purchase db e u a m r0 cb with
    | error err =>
      rw [hr] at h
      exact absurd h (by simp [Except.map])
    | ok r =>
      obtain ⟨db1, rec⟩ := r
      rw [hr] at h
      simp only [Except.map, Except.ok.injEq] at h
      rw [← h]
      exact WalletService.goodState_record_purchase e u a m r0 cb hg hr
  | purchaseMirror e u a m r0 cb =>
    simp only [applyOp] at h
    cases hr : WalletService.record_purchase_mirror db e u a m r0 cb none with
    | error err =>
      rw [hr] at h
      exact absurd h (by simp [Except.map])
    | ok r =>
      obtain ⟨db1, rec⟩ := r
      rw [hr] at h
      simp only [Except.map, Except.ok.injEq] at h
      rw [← h]
      exact WalletService.goodState_record_purchase_mirror e u a m r0 cb none hg
        (fun c hc => by cases hc) hr
  | expire e u cb d =>
    simp only [applyOp] at h
    cases hr : WalletService.expire_remaining_balance db e u cb d with
    | error err =>
      rw [hr] at h
      exact absurd h (by simp [Except.map])
    | ok r =>
      obtain ⟨db1, rec⟩ := r
      rw [hr] at h
      simp only [Except.map, Except.ok.injEq] at h
      rw [← h]
      refine WalletService.goodState_expire e u cb d hg ?_ hr
      intro hpos
      simp only [goodOpB, Bool.or_eq_true, Bool.not_eq_true, decide_eq_false_iff_not] at hgood
      rcases hgood with hneg | hall
      · rw [Bool.not_eq_true', decide_eq_false_iff_not] at hneg
        exact absurd hpos hneg
      · rw [List.find?_eq_none]
        intro t ht hpt
        have := List.all_eq_true.mp hall t ht
        simp only [bne_iff_ne, ne_eq] at this
        exact this (by simpa using hpt)

theorem runOps_goodState {db db' : DB} (ops : List Op)
    (hrun : runOps db ops = some db') (hg : GoodState db)
    (hgood : goodRunB db ops = true) : GoodState db' := by
  induction ops generalizing db with
  | nil =>
    simp only [runOps, Option.some.injEq] at hrun
    rwa [← hrun]
  | cons op rest ih =>
    simp only [runOps] at hrun
    cases hap : applyOp db op with
    | error err =>
      rw [hap] at hrun
      exact absurd hrun (by simp)
    | ok db1 =>
      rw [hap] at hrun
      simp only [goodRunB, hap, Bool.and_eq_true] at hgood
      exact ih hrun (goodState_applyOp op hg hgood.1 hap) hgood.2

/-! Claim theorems. -/

/-- C3 (amended): starting from an empty ledger, after any finite sequence of
successful service operations in which no `expire_remaining_balance` call
executes with a positive cached balance while a ledger transaction with that
day's expiry idempotency key already exists (`goodRunB`), the value returned
by `get_balance` equals the value recomputed by
`reconcile_balance_from_ledger`, to the cent, for every `(event, user)`. -/
theorem c3_balance_matches_ledger (ops : List Op) (db : DB)
    (hrun : runOps DB.empty ops = some db)
    (hgood : goodRunB DB.empty ops = true)
    (event : Event) (user : User) :
    (WalletService.get_balance db event user).2 =
      (WalletService.reconcile_balance_from_ledger db event user).2 := by
  have hg := runOps_goodState ops hrun goodState_empty hgood
  rw [WalletService.get_balance_val]
  unfold WalletService.reconcile_balance_from_ledger
  simp only [WalletService.set_balance_val, WalletService.ensure_user_wallet_account_entries,
    WalletService.ensure_user_wallet_account_event, WalletService.ensure_user_wallet_account_code]
  rw [hg.balanced, walletLedgerSum_eq]
  exact (money_eq_of_isCents (isCents_entriesWalletSum _ _ _ hg.centsEntries)).symm

def evC3 : Event := ⟨1, false⟩
def usC3 : User := ⟨7, "ana"⟩
def opsC3 : List Op :=
  [.onlineTopup evC3 usC3 100 "PayPal" "" "",
   .expire evC3 usC3 none "2026-10-12",
   .onlineTopup evC3 usC3 50 "PayPal" "" "",
   .expire evC3 usC3 none "2026-10-12"]
def dbC3 : DB := (runOps DB.empty opsC3).getD DB.empty

/-- C3 counterexample: four successful operations — top-up 100, expire,
top-up 50, expire again the same calendar day — leave the cached balance at 0
while the ledger recomputation yields 50: the second same-day expiration
replays the existing expiry idempotency key (so no ledger entries are
written) yet still forces the cache to zero, so `get_balance` and
`reconcile_balance_from_ledger` disagree, refuting the claim as stated. -/
theorem c3_counterexample :
    runOps DB.empty opsC3 = some dbC3 ∧
    (WalletService.get_balance dbC3 evC3 usC3).2 = 0 ∧
    (WalletService.reconcile_balance_from_ledger dbC3 evC3 usC3).2 = 50 ∧
    (0 : ℚ) ≠ 50 := by
  refine ⟨?_, ?_, ?_, ?_⟩ <;> with_unfolding_all decide

def opsC3w : List Op :=
  [.onlineTopup evC3 usC3 100 "PayPal" "" "ref-1",
   .purchase evC3 usC3 30 "order" "77" none,
   .expire evC3 usC3 none "2026-10-12"]
def dbC3w : DB := (runOps DB.empty opsC3w).getD DB.empty

/-- C3 witness: a concrete good run (top-up 100, purchase 30, expire). -/
theorem c3_balance_matches_ledger_witness :
    runOps DB.empty opsC3w = some dbC3w ∧ goodRunB DB.empty opsC3w = true ∧
    (WalletService.get_balance dbC3w evC3 usC3).2 =
      (WalletService.reconcile_balance_from_ledger dbC3w evC3 usC3).2 :=
  ⟨by with_unfolding_all decide, by with_unfolding_all decide,
    c3_balance_matches_ledger opsC3w dbC3w (by with_unfolding_all decide)
      (by with_unfolding_all decide) evC3 usC3⟩

def evC1 : Event := ⟨1, false⟩
def acctC1 : LedgerAccount := ⟨1, "PLATFORM_CASH", "Caja plataforma", .asset, none, none, true⟩

/-- C1 (amended): a `post_transaction` call with a fresh idempotency key,
every entry of which quantizes to a nonzero amount, whose entries' quantized
amounts sum to a nonzero value raises
`ValueError("La transaccion contable no esta balanceada.")` — a fixed message
that does not carry the computed delta — and, because every caller runs the
call inside `transaction.atomic`, the raise rolls back the transaction row and
all entry rows written by the call (the `.error` result carries no database
state, modelling exactly that rollback).  The nonzero-entry hypothesis is
forced by the source: an entry whose quantized amount is zero violates the
`check_ledger_entry_nonzero_amount` constraint and raises `IntegrityError`
at the entry insert, before the balance check is ever reached. -/
theorem c1_unbalanced_aborts (db : DB) (event : Event) (ty : LedgerTxType)
    (k : String) (cb : Option Nat) (rm ri : String)
    (es : List (LedgerAccount × ℚ × String))
    (hfresh : db.transactions.find? (fun t => t.idempotency_key == k) = none)
    (hnz : (es.any fun x => money x.2.1 == 0) = false)
    (hsum : (es.map fun x => money x.2.1).sum ≠ 0) :
    WalletService.post_transaction db event ty k cb rm ri es =
      .error (.valueError "La transaccion contable no esta balanceada.") :=
  WalletService.post_transaction_unbalanced db event ty k cb rm ri es hfresh hnz hsum

/-- C1 witness: posting a single +1.00 entry on the empty ledger aborts. -/
theorem c1_unbalanced_aborts_witness :
    (DB.empty.transactions.find? (fun t => t.idempotency_key == "k1") = none) ∧
    (([(acctC1, (1 : ℚ), "d")].any fun x => money x.2.1 == 0) = false ∧
    (([(acctC1, (1 : ℚ), "d")].map fun x => money x.2.1).sum ≠ 0) ∧
    WalletService.post_transaction DB.empty evC1 .adjustment "k1" none "" ""
      [(acctC1, (1 : ℚ), "d")] =
        .error (.valueError "La transaccion contable no esta balanceada.")) :=
  ⟨by with_unfolding_all decide, by with_unfolding_all decide,
    by with_unfolding_all decide,
    c1_unbalanced_aborts DB.empty evC1 .adjustment "k1" none "" ""
      [(acctC1, (1 : ℚ), "d")] (by with_unfolding_all decide)
      (by with_unfolding_all decide) (by with_unfolding_all decide)⟩

/-- C1 counterexample: two unbalanced calls whose computed deltas differ
(+1.00 versus +2.00) raise the very same error value, so the error raised by
the code cannot carry the computed delta, refuting the claim as stated (the
delta appears only in the message of the deferred database trigger, which the
application-level raise preempts). -/
theorem c1_counterexample :
    WalletService.post_transaction DB.empty evC1 .adjustment "k1" none "" ""
        [(acctC1, (1 : ℚ), "d")] =
      .error (.valueError "La transaccion contable no esta balanceada.") ∧
    WalletService.post_transaction DB.empty evC1 .adjustment "k1" none "" ""
        [(acctC1, (2 : ℚ), "d")] =
      .error (.valueError "La transaccion contable no esta balanceada.") ∧
    ([(acctC1, (1 : ℚ), "d")].map fun x => money x.2.1).sum ≠
      ([(acctC1, (2 : ℚ), "d")].map fun x => money x.2.1).sum := by
  refine ⟨?_, ?_, ?_⟩ <;> with_unfolding_all decide

/-- C2: once a transaction with idempotency key `k` has been posted, any
second `post_transaction` call with `k` — whatever its event, type, creator,
reference or entries — returns the transaction created by the first call
unchanged, leaves the database exactly as it was (no new transaction, no new
entries) and does not raise. -/
theorem c2_post_transaction_idempotent
    {db db1 : DB} {tx1 : LedgerTransaction}
    (event1 event2 : Event) (ty1 ty2 : LedgerTxType) (k : String)
    (cb1 cb2 : Option Nat) (rm1 rm2 ri1 ri2 : String)
    (es1 es2 : List (LedgerAccount × ℚ × String))
    (h1 : WalletService.post_transaction db event1 ty1 k cb1 rm1 ri1 es1 = .ok (db1, tx1)) :
    WalletService.post_transaction db1 event2 ty2 k cb2 rm2 ri2 es2 = .ok (db1, tx1) := by
  unfold WalletService.post_transaction at h1
  cases hf : db.transactions.find? (fun t => t.idempotency_key == k) with
  | some tx0 =>
    rw [hf] at h1
    rw [Except.ok.injEq, Prod.mk.injEq] at h1
    obtain ⟨hdb, htx⟩ := h1
    subst hdb
    subst htx
    exact WalletService.post_transaction_replay _ _ _ _ _ _ _ _ _ hf
  | none =>
    rw [hf] at h1
    simp only [] at h1
    by_cases hz : (es1.any fun x => money x.2.1 == 0) = true
    · rw [if_pos hz] at h1
      exact absurd h1 (by simp)
    · rw [if_neg hz] at h1
      by_cases hsum : ((es1.map fun x => money x.2.1).sum : ℚ) ≠ 0
      · rw [if_pos hsum] at h1
        exact absurd h1 (by simp)
      · rw [if_neg hsum] at h1
        rw [Except.ok.injEq, Prod.mk.injEq] at h1
        obtain ⟨hdb, htx⟩ := h1
        apply WalletService.post_transaction_replay
        rw [← hdb]
        simp only []
        rw [List.find?_cons_of_pos _ (by simp)]
        rw [htx]

def evC2 : Event := ⟨1, false⟩
def acctC2 : LedgerAccount := ⟨1, "X", "Cuenta X", .asset, none, none, true⟩
def esC2 : List (LedgerAccount × ℚ × String) := [(acctC2, 2, "a"), (acctC2, -2, "b")]
def rC2 : DB × LedgerTransaction :=
  (WalletService.post_transaction DB.empty evC2 .adjustment "k" none "" "" esC2).toOption.getD
    (DB.empty, ⟨0, 0, .adjustment, .posted, "", "", "", none⟩)

/-- C2 witness: a replay with a different (even closed) event, type, creator,
reference and unbalanced entries still returns the first call's transaction
with the database unchanged. -/
theorem c2_post_transaction_idempotent_witness :
    WalletService.post_transaction DB.empty evC2 .adjustment "k" none "" "" esC2 =
      .ok rC2 ∧
    WalletService.post_transaction rC2.1 ⟨2, true⟩ .purchase "k" (some 9) "m" "i"
      [(acctC2, 5, "junk")] = .ok rC2 :=
  ⟨by with_unfolding_all decide,
    @c2_post_transaction_idempotent DB.empty rC2.1 rC2.2 evC2 ⟨2, true⟩ .adjustment
      .purchase "k" none (some 9) "" "m" "" "i" esC2 [(acctC2, 5, "junk")]
      (by with_unfolding_all decide)⟩

/-- C4: with a writable event and a (two-decimal, positive) amount `a`
exceeding the cached balance, `record_purchase` raises
`ValueError("Saldo insuficiente.")` — the spec's `InsufficientFundsError` —
before any ledger write: the funds check happens before `post_transaction`
is reached, and the raise aborts the atomic block, so the `.error` result
carries no state: the cached balance is untouched and no transaction or
entry rows exist.  The positivity and quantization hypotheses are the
operation's documented preconditions: amounts are two-decimal money values
and must be positive (a non-positive amount is rejected earlier with the
invalid-amount `ValueError`). -/
theorem c4_insufficient_funds_rejected (db : DB) (event : Event) (user : User)
    (a : ℚ) (rm rid : String) (cb : Option Nat)
    (hcl : event.closed = false)
    (hq : money a = a) (hpos : 0 < a)
    (hgt : cacheBalance db event.id user.id < a) :
    WalletService.record_purchase db event user a rm rid cb =
      .error (.valueError "Saldo insuficiente.") := by
  unfold WalletService.record_purchase
  simp only [assert_event_writable, hcl, Bool.false_eq_true, if_false, hq]
  rw [if_neg (not_le.mpr hpos)]
  rw [if_pos (by rw [WalletService.get_cache_row_balance]; exact hgt)]

def evC4 : Event := ⟨1, false⟩
def usC4 : User := ⟨4, "mia"⟩
def dbC4 : DB := (WalletService.set_balance DB.empty evC4 usC4 10).1

/-- C4 witness: balance 10.00, purchase of 10.01 raises the
insufficient-funds error (spec section 8, scenario 8). -/
theorem c4_insufficient_funds_rejected_witness :
    evC4.closed = false ∧ money (1001/100) = 1001/100 ∧ (0 : ℚ) < 1001/100 ∧
    cacheBalance dbC4 evC4.id usC4.id < 1001/100 ∧
    WalletService.record_purchase dbC4 evC4 usC4 (1001/100) "order" "9" none =
      .error (.valueError "Saldo insuficiente.") :=
  ⟨rfl, by with_unfolding_all decide, by with_unfolding_all decide,
    by with_unfolding_all decide,
    c4_insufficient_funds_rejected dbC4 evC4 usC4 (1001/100) "order" "9" none rfl
      (by with_unfolding_all decide) (by with_unfolding_all decide)
      (by with_unfolding_all decide)⟩

theorem findCache_saveCache_self (db : DB) (row c : WalletBalanceCache)
    (h : findCache db row.event row.user = some c) :
    findCache (saveCache db row) row.event row.user = some row := by
  unfold findCache at h
  unfold findCache saveCache
  simp only
  exact find?_map_replace_self db.caches row c h

namespace WalletService

theorem get_cache_eq_of_found {db : DB} (ev : Event) (us : User)
    (r : WalletBalanceCache) (hrow : findCache db ev.id us.id = some r) :
    get_balance_cache_for_update db ev us = (db, r) := by
  unfold get_balance_cache_for_update
  rw [hrow]

/-- Replaying the mirror purchase path against a state that already holds the
purchase idempotency key returns the read cache row unchanged and performs no
ledger write and no cache write. -/
theorem record_purchase_mirror_replay {db1 : DB} (ev : Event) (us : User)
    (a : ℚ) (rm rid : String) (cb' : Option Nat) (bc : Option WalletBalanceCache)
    (r : WalletBalanceCache)
    (hcl : ev.closed = false) (ha : ¬ money a ≤ 0)
    (hex : (db1.transactions.any fun t =>
      t.idempotency_key == purchaseKey ev.id rm rid) = true)
    (hrow : findCache db1 ev.id us.id = some r)
    (hbc : bc = none ∨ bc = some r) :
    record_purchase_mirror db1 ev us a rm rid cb' bc =
      .ok ((ensure_user_wallet_account (ensure_platform_accounts db1 ev).1 ev us).1, r) := by
  obtain ⟨tx0, hfind⟩ := Option.isSome_iff_exists.mp
    ((List.find?_isSome).mpr (by
      obtain ⟨t, ht, hpt⟩ := List.any_eq_true.mp hex
      exact ⟨t, ht, hpt⟩))
  unfold record_purchase_mirror
  simp only [assert_event_writable, hcl, Bool.false_eq_true, if_false]
  rw [if_neg ha]
  rcases hbc with rfl | rfl
  · simp only [get_cache_eq_of_found ev us r hrow]
    rw [post_transaction_replay _ _ _ _ _ _ _ _ _
      (by rw [chain_transactions]; exact hfind)]
    simp only [if_pos hex]
  · simp only []
    rw [post_transaction_replay _ _ _ _ _ _ _ _ _
      (by rw [chain_transactions]; exact hfind)]
    simp only [if_pos hex]

end WalletService

theorem findCache_congr {dbA dbB : DB} (h : dbA.caches = dbB.caches) (e u : Nat) :
    findCache dbA e u = findCache dbB e u := by
  unfold findCache
  rw [h]

theorem findCache_saveCache_self' (db : DB) (row c : WalletBalanceCache) (e u : Nat)
    (he : row.event = e) (hu : row.user = u)
    (h : findCache db e u = some c) :
    findCache (saveCache db row) e u = some row := by
  subst he
  subst hu
  exact findCache_saveCache_self db row c h

/-- C5 (amended): a successful purchase posting through the mirror path —
whether invoked standalone (`balance_cache = None`, as the backfill re-run
does) or from `record_purchase`, which passes its own locked cache row —
decrements the wallet balance cache exactly once for its
`(event, reference_model, reference_id)`: replaying the purchase through
`record_purchase_mirror` is a no-op returning the stored cache row with no
new ledger transaction, entries, or cache change, and replaying it through
the direct `record_purchase` path does the same whenever the remaining
balance still covers the amount, but raises
`ValueError("Saldo insuficiente.")` otherwise — still without touching the
cache or the ledger.  (As frozen, the claim fails on the direct path when
the first purchase left less than the amount in the wallet: the funds check
runs before the idempotency check, so the replay raises instead of
returning a cache row.) -/
theorem c5_replay_single_decrement {db db1 : DB} {c1 : WalletBalanceCache}
    (ev : Event) (us : User) (a : ℚ) (rm rid : String) (cb cb' : Option Nat)
    (bc : Option WalletBalanceCache)
    (hcl : ev.closed = false)
    (hbc : bc = none ∨ ∃ r0, findCache db ev.id us.id = some r0 ∧ bc = some r0)
    (h1 : WalletService.record_purchase_mirror db ev us a rm rid cb bc = .ok (db1, c1)) :
    findCache db1 ev.id us.id = some c1 ∧
    (∃ db2, WalletService.record_purchase_mirror db1 ev us a rm rid cb' none =
        .ok (db2, c1) ∧
      db2.transactions = db1.transactions ∧ db2.entries = db1.entries ∧
        db2.caches = db1.caches) ∧
    (c1.balance_ucoin < money a →
      WalletService.record_purchase db1 ev us a rm rid cb' =
        .error (.valueError "Saldo insuficiente.")) ∧
    (¬ c1.balance_ucoin < money a →
      ∃ db2, WalletService.record_purchase db1 ev us a rm rid cb' = .ok (db2, c1) ∧
        db2.transactions = db1.transactions ∧ db2.entries = db1.entries ∧
          db2.caches = db1.caches) := by
  by_cases ha : money a ≤ 0
  · exfalso
    unfold WalletService.record_purchase_mirror at h1
    simp only [assert_event_writable, hcl, Bool.false_eq_true, if_false,
      if_pos ha] at h1
    exact absurd h1 (by simp)
  · have hcents : IsCents (money a) := isCents_money a
    have hane : money a ≠ 0 := ne_of_gt (not_le.mp ha)
    have hmain : findCache db1 ev.id us.id = some c1 ∧
        (db1.transactions.any fun t =>
          t.idempotency_key == purchaseKey ev.id rm rid) = true := by
      unfold WalletService.record_purchase_mirror at h1
      simp only [assert_event_writable, hcl, Bool.false_eq_true, if_false] at h1
      rw [if_neg ha] at h1
      rcases hbc with rfl | ⟨r0, hr0, rfl⟩
      · simp only [] at h1
        by_cases hex : ((WalletService.get_balance_cache_for_update db ev us).1.transactions.any
            fun t => t.idempotency_key == purchaseKey ev.id rm rid) = true
        · obtain ⟨tx0, hfind⟩ := Option.isSome_iff_exists.mp
            ((List.find?_isSome).mpr (by
              obtain ⟨t, ht, hpt⟩ := List.any_eq_true.mp hex
              exact ⟨t, ht, hpt⟩))
          rw [WalletService.post_transaction_replay _ _ _ _ _ _ _ _ _
            (by rw [WalletService.chain_transactions]; exact hfind)] at h1
          simp only [if_pos hex] at h1
          rw [Except.ok.injEq, Prod.mk.injEq] at h1
          obtain ⟨hdb, hc⟩ := h1
          constructor
          · rw [← hdb, ← hc]
            rw [findCache_congr (WalletService.chain_caches _ ev us) ev.id us.id]
            exact WalletService.get_cache_found db ev us
          · rw [← hdb, WalletService.chain_transactions]
            exact hex
        · have hfind : ((WalletService.get_balance_cache_for_update db ev us).1.transactions.find?
              fun t => t.idempotency_key == purchaseKey ev.id rm rid) = none := by
            rw [List.find?_eq_none]
            intro t ht hpt
            exact hex (List.any_eq_true.mpr ⟨t, ht, hpt⟩)
          rw [WalletService.post_transaction_fresh _ _ _ _ _ _ _ _
            (by rw [WalletService.chain_transactions]; exact hfind)
            (anyMoneyZero_pair_false _ _ _ _ _ _
              (by rw [money_eq_of_isCents hcents.neg]; exact neg_ne_zero.mpr hane)
              (by rw [money_money]; exact hane))
            (by simp [money_money, money_eq_of_isCents hcents.neg])] at h1
          simp only [if_neg hex] at h1
          rw [Except.ok.injEq, Prod.mk.injEq] at h1
          obtain ⟨hdb, hc⟩ := h1
          constructor
          · rw [← hdb, ← hc]
            apply findCache_saveCache_self'
            · exact WalletService.get_cache_row_event db ev us
            · exact WalletService.get_cache_row_user db ev us
            · refine Eq.trans (findCache_congr ?_ ev.id us.id)
                (WalletService.get_cache_found db ev us)
              exact WalletService.chain_caches _ ev us
          · rw [← hdb]
            rw [saveCache_transactions]
            simp only
            apply List.any_eq_true.mpr
            refine ⟨WalletService.freshTx _ ev .purchase (purchaseKey ev.id rm rid)
              (some (cb.getD us.id)) rm rid, List.mem_cons_self _ _,
              by simp [WalletService.freshTx]⟩
      · simp only [] at h1
        have hkey0 := List.find?_some hr0
        simp only [Bool.and_eq_true, beq_iff_eq] at hkey0
        by_cases hex : (db.transactions.any fun t =>
            t.idempotency_key == purchaseKey ev.id rm rid) = true
        · obtain ⟨tx0, hfind⟩ := Option.isSome_iff_exists.mp
            ((List.find?_isSome).mpr (by
              obtain ⟨t, ht, hpt⟩ := List.any_eq_true.mp hex
              exact ⟨t, ht, hpt⟩))
          rw [WalletService.post_transaction_replay _ _ _ _ _ _ _ _ _
            (by rw [WalletService.chain_transactions]; exact hfind)] at h1
          simp only [if_pos hex] at h1
          rw [Except.ok.injEq, Prod.mk.injEq] at h1
          obtain ⟨hdb, hc⟩ := h1
          constructor
          · rw [← hdb, ← hc]
            rw [findCache_congr (WalletService.chain_caches _ ev us) ev.id us.id]
            exact hr0
          · rw [← hdb, WalletService.chain_transactions]
            exact hex
        · have hfind : (db.transactions.find?
              fun t => t.idempotency_key == purchaseKey ev.id rm rid) = none := by
            rw [List.find?_eq_none]
            intro t ht hpt
            exact hex (List.any_eq_true.mpr ⟨t, ht, hpt⟩)
          rw [WalletService.post_transaction_fresh _ _ _ _ _ _ _ _
            (by rw [WalletService.chain_transactions]; exact hfind)
            (anyMoneyZero_pair_false _ _ _ _ _ _
              (by rw [money_eq_of_isCents hcents.neg]; exact neg_ne_zero.mpr hane)
              (by rw [money_money]; exact hane))
            (by simp [money_money, money_eq_of_isCents hcents.neg])] at h1
          simp only [if_neg hex] at h1
          rw [Except.ok.injEq, Prod.mk.injEq] at h1
          obtain ⟨hdb, hc⟩ := h1
          constructor
          · rw [← hdb, ← hc]
            apply findCache_saveCache_self'
            · exact hkey0.1
            · exact hkey0.2
            · refine Eq.trans (findCache_congr ?_ ev.id us.id) hr0
              exact WalletService.chain_caches _ ev us
          · rw [← hdb]
            rw [saveCache_transactions]
            simp only
            apply List.any_eq_true.mpr
            refine ⟨WalletService.freshTx _ ev .purchase (purchaseKey ev.id rm rid)
              (some (cb.getD us.id)) rm rid, List.mem_cons_self _ _,
              by simp [WalletService.freshTx]⟩
    obtain ⟨hrow1, hex1⟩ := hmain
    refine ⟨hrow1, ?_, ?_, ?_⟩
    · exact ⟨_, WalletService.record_purchase_mirror_replay ev us a rm rid cb' none c1
        hcl ha hex1 hrow1 (Or.inl rfl),
        WalletService.chain_transactions _ ev us, WalletService.chain_entries _ ev us,
        WalletService.chain_caches _ ev us⟩
    · intro hlt2
      unfold WalletService.record_purchase
      simp only [assert_event_writable, hcl, Bool.false_eq_true, if_false]
      rw [if_neg ha]
      rw [WalletService.get_cache_eq_of_found ev us c1 hrow1]
      simp only
      rw [if_pos hlt2]
    · intro hge2
      unfold WalletService.record_purchase
      simp only [assert_event_writable, hcl, Bool.false_eq_true, if_false]
      rw [if_neg ha]
      rw [WalletService.get_cache_eq_of_found ev us c1 hrow1]
      simp only
      rw [if_neg hge2]
      exact ⟨_, WalletService.record_purchase_mirror_replay ev us (money a) rm rid
        (some (cb'.getD us.id)) (some c1) c1 hcl (by rwa [money_money]) hex1 hrow1
        (Or.inr rfl),
        WalletService.chain_transactions _ ev us, WalletService.chain_entries _ ev us,
        WalletService.chain_caches _ ev us⟩

def evC5 : Event := ⟨1, false⟩
def usC5 : User := ⟨3, "leo"⟩
def dbC5 : DB := (WalletService.set_balance DB.empty evC5 usC5 30).1
def rC5 : DB × WalletBalanceCache :=
  (WalletService.record_purchase dbC5 evC5 usC5 30 "sales_order" "999" none).toOption.getD
    (DB.empty, ⟨0, 0, 0⟩)

/-- C5 counterexample: with balance 30.00, a purchase of 30.00 succeeds and
drains the wallet; replaying the identical `record_purchase` call then raises
`ValueError("Saldo insuficiente.")` instead of returning a cache row, because
the direct path checks funds before it checks the idempotency key — refuting
the claim that the second call "still returns a valid cache row". -/
theorem c5_counterexample :
    WalletService.record_purchase dbC5 evC5 usC5 30 "sales_order" "999" none = .ok rC5 ∧
    rC5.2.balance_ucoin = 0 ∧
    WalletService.record_purchase rC5.1 evC5 usC5 30 "sales_order" "999" none =
      .error (.valueError "Saldo insuficiente.") := by
  refine ⟨?_, ?_, ?_⟩ <;> with_unfolding_all decide

def dbC5w : DB := (WalletService.set_balance DB.empty evC5 usC5 100).1
def rC5w : DB × WalletBalanceCache :=
  (WalletService.record_purchase_mirror dbC5w evC5 usC5 30 "order" "77" none
    none).toOption.getD (DB.empty, ⟨0, 0, 0⟩)

/-- C5 witness: balance 100.00, a standalone (backfill-style) mirror purchase
of 30.00 with no balance_cache argument, then the replay behaviour of the
amended claim at that concrete state. -/
theorem c5_replay_single_decrement_witness :
    evC5.closed = false ∧
    WalletService.record_purchase_mirror dbC5w evC5 usC5 30 "order" "77" none none =
      .ok rC5w ∧
    (findCache rC5w.1 evC5.id usC5.id = some rC5w.2 ∧
      (∃ db2, WalletService.record_purchase_mirror rC5w.1 evC5 usC5 30 "order" "77"
          none none = .ok (db2, rC5w.2) ∧
        db2.transactions = rC5w.1.transactions ∧ db2.entries = rC5w.1.entries ∧
          db2.caches = rC5w.1.caches) ∧
      (rC5w.2.balance_ucoin < money 30 →
        WalletService.record_purchase rC5w.1 evC5 usC5 30 "order" "77" none =
          .error (.valueError "Saldo insuficiente.")) ∧
      (¬ rC5w.2.balance_ucoin < money 30 →
        ∃ db2, WalletService.record_purchase rC5w.1 evC5 usC5 30 "order" "77" none =
            .ok (db2, rC5w.2) ∧
          db2.transactions = rC5w.1.transactions ∧ db2.entries = rC5w.1.entries ∧
            db2.caches = rC5w.1.caches)) :=
  ⟨rfl, by with_unfolding_all decide,
    @c5_replay_single_decrement dbC5w rC5w.1 rC5w.2 evC5 usC5 30 "order" "77" none none
      none rfl (Or.inl rfl) (by with_unfolding_all decide)⟩

theorem cacheBalance_saveCache_self' (db : DB) (row : WalletBalanceCache)
    {c : WalletBalanceCache} (e u : Nat)
    (he : row.event = e) (hu : row.user = u)
    (h : findCache db e u = some c) :
    cacheBalance (saveCache db row) e u = row.balance_ucoin := by
  subst he
  subst hu
  exact cacheBalance_saveCache_self db row c h

namespace WalletService

theorem expire_noop {dbX : DB} (ev : Event) (us : User) (cb : Option Nat) (d : String)
    (r : WalletBalanceCache)
    (hcl : ev.closed = false)
    (hrow : findCache dbX ev.id us.id = some r)
    (hr0 : money r.balance_ucoin ≤ 0) :
    expire_remaining_balance dbX ev us cb d = .ok (dbX, r) := by
  unfold expire_remaining_balance
  simp only [assert_event_writable, hcl, Bool.false_eq_true, if_false]
  rw [get_cache_eq_of_found ev us r hrow]
  simp only
  rw [if_pos hr0]

end WalletService

/-- C6 (amended): with a writable event and a quantized, nonnegative cached
balance, two `expire_remaining_balance` calls on the same calendar day
produce at most one new ledger transaction, leave the cached balance at
exactly 0.00, and the second call is a no-op returning the first call's state
unchanged; moreover a call that finds a balance equal to zero (the code in
fact tests `amount <= 0`) is a no-op with no ledger write.  As frozen, the
claim fails on reachable negative balances, where both calls no-op and the
balance stays negative instead of ending at exactly 0.00. -/
theorem c6_expire_idempotent_daily {db : DB} (ev : Event) (us : User)
    (cb cb' : Option Nat) (d : String)
    (hcl : ev.closed = false)
    (hb : money (cacheBalance db ev.id us.id) = cacheBalance db ev.id us.id)
    (hnonneg : 0 ≤ cacheBalance db ev.id us.id) :
    ∃ db1 c1, WalletService.expire_remaining_balance db ev us cb d = .ok (db1, c1) ∧
      cacheBalance db1 ev.id us.id = 0 ∧
      db1.transactions.length ≤ db.transactions.length + 1 ∧
      (∃ c2, WalletService.expire_remaining_balance db1 ev us cb' d = .ok (db1, c2) ∧
        c2.balance_ucoin = 0) ∧
      (cacheBalance db ev.id us.id = 0 →
        db1.transactions = db.transactions ∧ db1.entries = db.entries) := by
  have hbal := WalletService.get_cache_row_balance db ev us
  have hm0 : money (0 : ℚ) = 0 := money_eq_of_isCents IsCents.zero
  by_cases hzero : cacheBalance db ev.id us.id = 0
  · have hrow := WalletService.get_cache_found db ev us
    have h0 : money (WalletService.get_balance_cache_for_update db ev us).2.balance_ucoin ≤ 0 := by
      rw [hbal, hzero, hm0]
    have hfirst : WalletService.expire_remaining_balance db ev us cb d =
        .ok ((WalletService.get_balance_cache_for_update db ev us).1,
          (WalletService.get_balance_cache_for_update db ev us).2) := by
      unfold WalletService.expire_remaining_balance
      simp only [assert_event_writable, hcl, Bool.false_eq_true, if_false]
      rw [if_pos h0]
    refine ⟨_, _, hfirst, ?_, ?_, ⟨_, WalletService.expire_noop ev us cb' d _ hcl hrow h0,
        by rw [hbal, hzero]⟩, ?_⟩
    · rw [WalletService.get_cache_cacheBalance]
      exact hzero
    · rw [WalletService.get_cache_transactions]
      omega
    · intro _
      exact ⟨WalletService.get_cache_transactions db ev us,
        WalletService.get_cache_entries db ev us⟩
  · have hpos : 0 < cacheBalance db ev.id us.id := lt_of_le_of_ne hnonneg (Ne.symm hzero)
    have hgt : ¬ money
        (WalletService.get_balance_cache_for_update db ev us).2.balance_ucoin ≤ 0 := by
      rw [hbal, hb]
      exact not_le.mpr hpos
    have hrowA : findCache (WalletService.get_balance_cache_for_update db ev us).1
        ev.id us.id = some (WalletService.get_balance_cache_for_update db ev us).2 :=
      WalletService.get_cache_found db ev us
    have hev := WalletService.get_cache_row_event db ev us
    have hus := WalletService.get_cache_row_user db ev us
    have hfirst : WalletService.expire_remaining_balance db ev us cb d =
        (match WalletService.post_transaction
            (WalletService.ensure_user_wallet_account
              (WalletService.ensure_platform_accounts
                (WalletService.get_balance_cache_for_update db ev us).1 ev).1 ev us).1
            ev .expiry (expiryKey ev.id us.id d) cb "event_campaign" (Nat.repr ev.id)
            [((WalletService.ensure_user_wallet_account
                (WalletService.ensure_platform_accounts
                  (WalletService.get_balance_cache_for_update db ev us).1 ev).1 ev us).2,
                -(money (WalletService.get_balance_cache_for_update db ev us).2.balance_ucoin),
                "Expiracion de saldo al cierre de evento"),
              ((WalletService.ensure_platform_accounts
                (WalletService.get_balance_cache_for_update db ev us).1 ev).2.2.2,
                money (WalletService.get_balance_cache_for_update db ev us).2.balance_ucoin,
                "Ingreso por expiracion")] with
          | .error e => .error e
          | .ok q => .ok (saveCache q.1
              (⟨(WalletService.get_balance_cache_for_update db ev us).2.event,
                (WalletService.get_balance_cache_for_update db ev us).2.user, 0⟩ :
                  WalletBalanceCache),
              (⟨(WalletService.get_balance_cache_for_update db ev us).2.event,
                (WalletService.get_balance_cache_for_update db ev us).2.user, 0⟩ :
                  WalletBalanceCache))) := by
      unfold WalletService.expire_remaining_balance
      simp only [assert_event_writable, hcl, Bool.false_eq_true, if_false]
      rw [if_neg hgt]
    rw [hfirst]
    cases hfind : (WalletService.get_balance_cache_for_update db ev us).1.transactions.find?
        (fun t => t.idempotency_key == expiryKey ev.id us.id d) with
    | some tx0 =>
      rw [WalletService.post_transaction_replay _ _ _ _ _ _ _ _ _
        (by rw [WalletService.chain_transactions]; exact hfind)]
      simp only []
      have hrowChain : findCache (WalletService.ensure_user_wallet_account
          (WalletService.ensure_platform_accounts
            (WalletService.get_balance_cache_for_update db ev us).1 ev).1 ev us).1
          ev.id us.id = some (WalletService.get_balance_cache_for_update db ev us).2 := by
        rw [findCache_congr (WalletService.chain_caches _ ev us)]
        exact hrowA
      have hrowSaved : findCache (saveCache (WalletService.ensure_user_wallet_account
          (WalletService.ensure_platform_accounts
            (WalletService.get_balance_cache_for_update db ev us).1 ev).1 ev us).1
          (⟨(WalletService.get_balance_cache_for_update db ev us).2.event,
            (WalletService.get_balance_cache_for_update db ev us).2.user, 0⟩ :
              WalletBalanceCache)) ev.id us.id =
          some (⟨(WalletService.get_balance_cache_for_update db ev us).2.event,
            (WalletService.get_balance_cache_for_update db ev us).2.user, 0⟩ :
              WalletBalanceCache) := by
        apply findCache_saveCache_self'
        · exact hev
        · exact hus
        · exact hrowChain
      refine ⟨_, _, rfl, ?_, ?_, ⟨_, WalletService.expire_noop ev us cb' d _ hcl hrowSaved
        (by exact hm0.le), rfl⟩, fun h0 => absurd h0 hzero⟩
      · apply cacheBalance_saveCache_self'
        · exact hev
        · exact hus
        · exact hrowChain
      · rw [saveCache_transactions, WalletService.chain_transactions,
          WalletService.get_cache_transactions]
        omega
    | none =>
      have hcents : IsCents (money
          (WalletService.get_balance_cache_for_update db ev us).2.balance_ucoin) :=
        isCents_money _
      rw [WalletService.post_transaction_fresh _ _ _ _ _ _ _ _
        (by rw [WalletService.chain_transactions]; exact hfind)
        (anyMoneyZero_pair_false _ _ _ _ _ _
          (by rw [money_eq_of_isCents hcents.neg]
              exact neg_ne_zero.mpr (ne_of_gt (not_le.mp hgt)))
          (by rw [money_money]; exact ne_of_gt (not_le.mp hgt)))
        (by simp [money_money, money_eq_of_isCents hcents.neg])]
      simp only []
      refine ⟨_, _, rfl, ?_, ?_, ?_, fun h0 => absurd h0 hzero⟩
      · apply cacheBalance_saveCache_self'
        · exact hev
        · exact hus
        · refine Eq.trans (findCache_congr ?_ ev.id us.id) hrowA
          exact WalletService.chain_caches _ ev us
      · rw [saveCache_transactions]
        show ((WalletService.freshTx _ ev .expiry (expiryKey ev.id us.id d) cb
          "event_campaign" (Nat.repr ev.id)) :: (WalletService.ensure_user_wallet_account
            (WalletService.ensure_platform_accounts
              (WalletService.get_balance_cache_for_update db ev us).1 ev).1 ev
              us).1.transactions).length ≤ db.transactions.length + 1
        rw [List.length_cons, WalletService.chain_transactions,
          WalletService.get_cache_transactions]
      · refine ⟨(⟨(WalletService.get_balance_cache_for_update db ev us).2.event,
          (WalletService.get_balance_cache_for_update db ev us).2.user, 0⟩ :
            WalletBalanceCache), ?_, rfl⟩
        refine WalletService.expire_noop ev us cb' d _ hcl ?_ hm0.le
        apply findCache_saveCache_self'
        · exact hev
        · exact hus
        · refine Eq.trans (findCache_congr ?_ ev.id us.id) hrowA
          exact WalletService.chain_caches _ ev us

def evC6 : Event := ⟨1, false⟩
def usC6 : User := ⟨6, "kai"⟩
def rC6 : DB × WalletBalanceCache :=
  (WalletService.record_purchase_mirror DB.empty evC6 usC6 5 "order" "1" none
    none).toOption.getD (DB.empty, ⟨0, 0, 0⟩)
def eC6 : DB × WalletBalanceCache :=
  (WalletService.expire_remaining_balance rC6.1 evC6 usC6 none
    "2026-10-12").toOption.getD (DB.empty, ⟨0, 0, 0⟩)

/-- C6 counterexample: a mirror purchase with no funds drives the cached
balance to -5.00 (a reachable state); `expire_remaining_balance` then
returns the state unchanged (the code no-ops on `amount <= 0`, not only on
zero), so both same-day calls are this very same no-op call and the balance
ends at -5.00, not at exactly 0.00 as the claim states. -/
theorem c6_counterexample :
    WalletService.record_purchase_mirror DB.empty evC6 usC6 5 "order" "1" none none =
      .ok rC6 ∧
    cacheBalance rC6.1 evC6.id usC6.id = -5 ∧
    WalletService.expire_remaining_balance rC6.1 evC6 usC6 none "2026-10-12" =
      .ok (rC6.1, eC6.2) ∧
    eC6.2.balance_ucoin = -5 ∧
    ((-5 : ℚ) = 0 → False) := by
  refine ⟨?_, ?_, ?_, ?_, by norm_num⟩ <;> with_unfolding_all decide

def dbC6w : DB := (WalletService.set_balance DB.empty evC6 usC6 40).1

/-- C6 witness: balance 40.00, two same-day expirations. -/
theorem c6_expire_idempotent_daily_witness :
    evC6.closed = false ∧
    money (cacheBalance dbC6w evC6.id usC6.id) = cacheBalance dbC6w evC6.id usC6.id ∧
    (0 : ℚ) ≤ cacheBalance dbC6w evC6.id usC6.id ∧
    (∃ db1 c1, WalletService.expire_remaining_balance dbC6w evC6 usC6 none "2026-10-12" =
        .ok (db1, c1) ∧
      cacheBalance db1 evC6.id usC6.id = 0 ∧
      db1.transactions.length ≤ dbC6w.transactions.length + 1 ∧
      (∃ c2, WalletService.expire_remaining_balance db1 evC6 usC6 none "2026-10-12" =
          .ok (db1, c2) ∧ c2.balance_ucoin = 0) ∧
      (cacheBalance dbC6w evC6.id usC6.id = 0 →
        db1.transactions = dbC6w.transactions ∧ db1.entries = dbC6w.entries)) :=
  ⟨rfl, by with_unfolding_all decide, by with_unfolding_all decide,
    c6_expire_idempotent_daily evC6 usC6 none none "2026-10-12" rfl
      (by with_unfolding_all decide) (by with_unfolding_all decide)⟩

namespace WalletService

/-- With a writable event, a valid amount and an already-used nonempty
`source_reference`, `record_online_topup` short-circuits on the stored
record. -/
theorem record_online_topup_replay {db : DB} (ev : Event) (us : User)
    (a : ℚ) (p pr sr : String) (r : TopupRecord)
    (hcl : ev.closed = false) (ha : ¬ money a ≤ 0) (hsr : sr ≠ "")
    (hfound : (db.topups.find? fun t =>
      t.event == ev.id && t.source_reference == sr) = some r) :
    record_online_topup db ev us a p pr sr = .ok (db, r) := by
  unfold record_online_topup
  simp only [assert_event_writable, hcl, Bool.false_eq_true, if_false]
  rw [if_neg ha]
  rw [if_pos hsr, hfound]
  simp only [if_true]

end WalletService

/-- C7: a `record_online_topup` call (writable event, positive quantized
amount — the operation's stated preconditions) whose non-empty
`source_reference` already exists in a `TopupRecord` for the same event
returns that existing record and short-circuits: the database is returned
unchanged, so no new `TopupRecord`, no ledger transaction and no
balance-cache change are made by the replay. -/
theorem c7_topup_source_reference_replay {db : DB} (ev : Event) (us : User)
    (a : ℚ) (p pr sr : String) (r : TopupRecord)
    (hcl : ev.closed = false) (ha : ¬ money a ≤ 0) (hsr : sr ≠ "")
    (hfound : (db.topups.find? fun t =>
      t.event == ev.id && t.source_reference == sr) = some r) :
    WalletService.record_online_topup db ev us a p pr sr = .ok (db, r) :=
  WalletService.record_online_topup_replay ev us a p pr sr r hcl ha hsr hfound

def evC7 : Event := ⟨1, false⟩
def usC7 : User := ⟨7, "ana"⟩
def rC7 : DB × TopupRecord :=
  (WalletService.record_online_topup DB.empty evC7 usC7 100 "PayPal" "pp-1"
    "ref-1").toOption.getD
      (DB.empty, ⟨0, 0, 0, .online, 0, .success, "", "", "", none⟩)

/-- C7 witness: posting a 100.00 top-up with `source_reference = "ref-1"` and
replaying it with amount 50.00 returns the stored record and state. -/
theorem c7_topup_source_reference_replay_witness :
    evC7.closed = false ∧ ¬ money (50 : ℚ) ≤ 0 ∧ ("ref-1" : String) ≠ "" ∧
    (rC7.1.topups.find? fun t =>
      t.event == evC7.id && t.source_reference == "ref-1") = some rC7.2 ∧
    WalletService.record_online_topup rC7.1 evC7 usC7 50 "PayPal" "pp-2" "ref-1" =
      .ok (rC7.1, rC7.2) :=
  ⟨rfl, by with_unfolding_all decide, by with_unfolding_all decide,
    by with_unfolding_all decide,
    c7_topup_source_reference_replay evC7 usC7 50 "PayPal" "pp-2" "ref-1" rC7.2 rfl
      (by with_unfolding_all decide) (by with_unfolding_all decide)
      (by with_unfolding_all decide)⟩

/-- C8: `ensure_account` is a pure get-or-create keyed on `(event, code)`:
when a row with that key exists, every repeat call returns that stored row —
all fields (name, type, owners, active flag) exactly as stored — and leaves
the database untouched, regardless of the name, type and owner arguments of
the repeat call; by its type the operation has no error outcome at all. -/
theorem c8_ensure_account_get_or_create {db : DB} (ev : Event)
    (code name' : String) (ty' : LedgerAccountType)
    (ou' os' : Option Nat) (acct : LedgerAccount)
    (hfound : (db.accounts.find? fun x =>
      x.event == ev.id && x.code == code) = some acct) :
    WalletService.ensure_account db ev code name' ty' ou' os' = (db, acct) := by
  unfold WalletService.ensure_account
  rw [hfound]

def evC8 : Event := ⟨1, false⟩
def rC8 : DB × LedgerAccount :=
  WalletService.ensure_account DB.empty evC8 "STALL_1" "Puesto 1" .asset (some 5) none

/-- C8 witness: an account created as an asset named "Puesto 1" owned by
user 5 is returned unchanged by a repeat call passing a different name, type
and owner. -/
theorem c8_ensure_account_get_or_create_witness :
    (rC8.1.accounts.find? fun x =>
      x.event == evC8.id && x.code == "STALL_1") = some rC8.2 ∧
    WalletService.ensure_account rC8.1 evC8 "STALL_1" "Otro nombre" .revenue none
      (some 9) = (rC8.1, rC8.2) ∧
    rC8.2.name = "Puesto 1" ∧ rC8.2.account_type = .asset ∧
    rC8.2.owner_user = some 5 :=
  ⟨by with_unfolding_all decide,
    c8_ensure_account_get_or_create evC8 "STALL_1" "Otro nombre" .revenue none (some 9)
      rC8.2 (by with_unfolding_all decide),
    by with_unfolding_all decide, by with_unfolding_all decide,
    by with_unfolding_all decide⟩

namespace WalletService

/-- With a writable event, a positive quantized amount, a quantized cached
balance and a fresh purchase idempotency key, the mirror purchase path posts
the transaction and overwrites the cache with the prior balance minus the
amount — with no funds check. -/
theorem record_purchase_mirror_fresh {db : DB} (ev : Event) (us : User)
    (a : ℚ) (rm rid : String) (cb : Option Nat)
    (hcl : ev.closed = false) (hq : money a = a) (hpos : 0 < a)
    (hb : money (cacheBalance db ev.id us.id) = cacheBalance db ev.id us.id)
    (hfresh : db.transactions.find?
      (fun t => t.idempotency_key == purchaseKey ev.id rm rid) = none) :
    ∃ db' c', record_purchase_mirror db ev us a rm rid cb none = .ok (db', c') ∧
      c'.balance_ucoin = cacheBalance db ev.id us.id - a ∧
      cacheBalance db' ev.id us.id = cacheBalance db ev.id us.id - a := by
  have hbc : IsCents (cacheBalance db ev.id us.id) := hb ▸ isCents_money _
  have hac : IsCents a := hq ▸ isCents_money a
  have hmba : money (cacheBalance db ev.id us.id - a) = cacheBalance db ev.id us.id - a :=
    money_eq_of_isCents (hbc.sub hac)
  unfold record_purchase_mirror
  simp only [assert_event_writable, hcl, Bool.false_eq_true, if_false, hq]
  rw [if_neg (not_le.mpr hpos)]
  have hfreshA : (((get_balance_cache_for_update db ev us).1).transactions.any
      fun t => t.idempotency_key == purchaseKey ev.id rm rid) = false := by
    rw [get_cache_transactions]
    by_contra hany
    rw [Bool.not_eq_false] at hany
    obtain ⟨t, ht, hpt⟩ := List.any_eq_true.mp hany
    exact (List.find?_eq_none.mp hfresh t ht) hpt
  rw [hfreshA]
  have hfresh3 : ((ensure_user_wallet_account (ensure_platform_accounts
      (get_balance_cache_for_update db ev us).1 ev).1 ev us).1).transactions.find?
      (fun t => t.idempotency_key == purchaseKey ev.id rm rid) = none := by
    rw [chain_transactions, get_cache_transactions]
    exact hfresh
  have hsum : (([((ensure_user_wallet_account (ensure_platform_accounts
      (get_balance_cache_for_update db ev us).1 ev).1 ev us).2, -a,
      "Descuento de wallet por compra"),
      ((ensure_platform_accounts (get_balance_cache_for_update db ev us).1 ev).2.2.1, a,
        "Reconocimiento de ingreso")]).map fun x => money x.2.1).sum = 0 := by
    simp [hq, money_eq_of_isCents hac.neg]
  have hnz := anyMoneyZero_pair_false
    ((ensure_user_wallet_account (ensure_platform_accounts
      (get_balance_cache_for_update db ev us).1 ev).1 ev us).2)
    ((ensure_platform_accounts (get_balance_cache_for_update db ev us).1 ev).2.2.1)
    (-a) a "Descuento de wallet por compra" "Reconocimiento de ingreso"
    (by rw [money_eq_of_isCents hac.neg]; exact neg_ne_zero.mpr (ne_of_gt hpos))
    (by rw [hq]; exact ne_of_gt hpos)
  rw [post_transaction_fresh _ _ _ _ _ _ _ _ hfresh3 hnz hsum]
  simp only []
  rw [if_neg (by decide : ¬ (false = true))]
  refine ⟨_, _, rfl, ?_, ?_⟩
  · simp only [get_cache_row_balance]
    exact hmba
  · refine Eq.trans (cacheBalance_saveCache_self' _ _ ev.id us.id
      (get_cache_row_event db ev us) (get_cache_row_user db ev us)
      (Eq.trans (findCache_congr (chain_caches _ ev us) ev.id us.id)
        (get_cache_found db ev us))) ?_
    simp only [get_cache_row_balance]
    exact hmba

end WalletService

/-- C9: `record_purchase_mirror` performs no sufficient-funds check: for a
writable event, positive quantized amount, quantized cached balance and
fresh purchase idempotency key, the call succeeds even when the amount
exceeds the cached balance, and the resulting cached balance is the prior
balance minus the amount — strictly negative whenever the amount exceeds the
prior balance. (The non-negativity guarantee belongs only to the direct
`record_purchase` path, which raises "Saldo insuficiente." first.) -/
theorem c9_mirror_allows_overdraft (db : DB) (ev : Event) (us : User)
    (a : ℚ) (rm rid : String) (cb : Option Nat)
    (hcl : ev.closed = false) (hq : money a = a) (hpos : 0 < a)
    (hb : money (cacheBalance db ev.id us.id) = cacheBalance db ev.id us.id)
    (hfresh : db.transactions.find?
      (fun t => t.idempotency_key == purchaseKey ev.id rm rid) = none) :
    ∃ db' c', WalletService.record_purchase_mirror db ev us a rm rid cb none =
        .ok (db', c') ∧
      c'.balance_ucoin = cacheBalance db ev.id us.id - a ∧
      cacheBalance db' ev.id us.id = cacheBalance db ev.id us.id - a ∧
      (cacheBalance db ev.id us.id < a → cacheBalance db' ev.id us.id < 0) := by
  obtain ⟨db', c', heq, hcb, hdb⟩ :=
    WalletService.record_purchase_mirror_fresh ev us a rm rid cb hcl hq hpos hb hfresh
  exact ⟨db', c', heq, hcb, hdb, fun hlt => by rw [hdb]; linarith⟩

def evC9 : Event := ⟨3, false⟩
def usC9 : User := ⟨9, "leo"⟩

/-- C9 witness: on an empty state (cached balance 0.00) a mirror purchase of
5.00 succeeds and drives the cached balance to −5.00. -/
theorem c9_mirror_allows_overdraft_witness :
    evC9.closed = false ∧ money (5 : ℚ) = 5 ∧ (0 : ℚ) < 5 ∧
    money (cacheBalance DB.empty evC9.id usC9.id) =
      cacheBalance DB.empty evC9.id usC9.id ∧
    (DB.empty.transactions.find? fun t =>
      t.idempotency_key == purchaseKey evC9.id "sales_order" "999") = none ∧
    (∃ db' c', WalletService.record_purchase_mirror DB.empty evC9 usC9 5 "sales_order"
        "999" none none = .ok (db', c') ∧
      c'.balance_ucoin = cacheBalance DB.empty evC9.id usC9.id - 5 ∧
      cacheBalance db' evC9.id usC9.id = cacheBalance DB.empty evC9.id usC9.id - 5 ∧
      (cacheBalance DB.empty evC9.id usC9.id < 5 →
        cacheBalance db' evC9.id usC9.id < 0)) :=
  ⟨rfl, by with_unfolding_all decide, by with_unfolding_all decide,
    by with_unfolding_all decide, rfl,
    c9_mirror_allows_overdraft DB.empty evC9 usC9 5 "sales_order" "999" none rfl
      (by with_unfolding_all decide) (by with_unfolding_all decide)
      (by with_unfolding_all decide) rfl⟩

/-- C10: replaying `record_online_topup` against an existing
`(event, source_reference)` pair with a different user, amount, provider or
provider reference (all quantified arbitrarily here) returns the originally
stored `TopupRecord` with every field unchanged and leaves the database
untouched: the differing arguments are silently ignored, and no error is
raised. -/
theorem c10_topup_replay_ignores_args {db : DB} (ev : Event) (us : User)
    (a : ℚ) (p pr sr : String) (r : TopupRecord)
    (hcl : ev.closed = false) (ha : ¬ money a ≤ 0) (hsr : sr ≠ "")
    (hfound : (db.topups.find? fun t =>
      t.event == ev.id && t.source_reference == sr) = some r) :
    ∃ rec, WalletService.record_online_topup db ev us a p pr sr = .ok (db, rec) ∧
      rec.user = r.user ∧ rec.amount_ucoin = r.amount_ucoin ∧
      rec.provider = r.provider ∧ rec.provider_ref = r.provider_ref ∧
      rec.source_reference = r.source_reference ∧ rec = r :=
  ⟨r, WalletService.record_online_topup_replay ev us a p pr sr r hcl ha hsr hfound,
    rfl, rfl, rfl, rfl, rfl, rfl⟩

def evC10 : Event := ⟨1, false⟩
def usC10 : User := ⟨7, "ana"⟩
def usC10b : User := ⟨8, "bob"⟩
def rC10 : DB × TopupRecord :=
  (WalletService.record_online_topup DB.empty evC10 usC10 100 "PayPal" "pp-1"
    "ref-X").toOption.getD
      (DB.empty, ⟨0, 0, 0, .online, 0, .success, "", "", "", none⟩)

/-- C10 witness: a 100.00 top-up by user 7 with reference "ref-X" replayed by
a different user with amount 25.00, provider "Stripe" and a different
provider ref returns the stored record with its original fields. -/
theorem c10_topup_replay_ignores_args_witness :
    evC10.closed = false ∧ ¬ money (25 : ℚ) ≤ 0 ∧ ("ref-X" : String) ≠ "" ∧
    (rC10.1.topups.find? fun t =>
      t.event == evC10.id && t.source_reference == "ref-X") = some rC10.2 ∧
    (∃ rec, WalletService.record_online_topup rC10.1 evC10 usC10b 25 "Stripe" "st-9"
        "ref-X" = .ok (rC10.1, rec) ∧
      rec.user = rC10.2.user ∧ rec.amount_ucoin = rC10.2.amount_ucoin ∧
      rec.provider = rC10.2.provider ∧ rec.provider_ref = rC10.2.provider_ref ∧
      rec.source_reference = rC10.2.source_reference ∧ rec = rC10.2) ∧
    rC10.2.user = usC10.id ∧ rC10.2.amount_ucoin = 100 ∧
    rC10.2.provider = "PayPal" :=
  ⟨rfl, by with_unfolding_all decide, by with_unfolding_all decide,
    by with_unfolding_all decide,
    c10_topup_replay_ignores_args evC10 usC10b 25 "Stripe" "st-9" "ref-X" rC10.2 rfl
      (by with_unfolding_all decide) (by with_unfolding_all decide)
      (by with_unfolding_all decide),
    by with_unfolding_all decide, by with_unfolding_all decide,
    by with_unfolding_all decide⟩
